import Mathlib

/-!
Verification development for the CodeWise graph-extraction engine
(`src/parser/parseReact.js`, `src/parser/utils/parser.js`,
`src/parser/src/encoder/dependencies/index.js`).

The JavaScript sources are shallowly embedded as executable Lean
definitions: the real filesystem becomes an explicit `FS` record of
boolean oracles, Babel's parser becomes a `String → Except String AST`
parameter, absolute filesystem paths are manipulated through the
segment-list helpers below (mirroring `path.dirname` / `path.resolve` /
`path.join` on already-absolute paths), and JS objects become Lean
structures in which a field that the code can leave `null`/absent is an
`Option`.  All string primitives are re-implemented by structural
recursion on character lists so that every definition evaluates inside
the kernel.
-/

namespace CodeWise

/-- Models `String.prototype.startsWith`. -/
def strStartsWith (s pat : String) : Bool :=
  pat.toList.isPrefixOf s.toList

/-- Models `String.prototype.endsWith`. -/
def strEndsWith (s pat : String) : Bool :=
  pat.toList.reverse.isPrefixOf s.toList.reverse

/-- Infix test on character lists (structural rendering of JS
`String.prototype.includes`). -/
def containsList : List Char → List Char → Bool
  | pat, [] => pat.isEmpty
  | pat, l@(_ :: tl) => pat.isPrefixOf l || containsList pat tl

/-- Models JS substring containment (`String.prototype.includes`). -/
def strContains (s pat : String) : Bool :=
  containsList pat.toList s.toList

/-- Models `String.prototype.slice(n)`: drop the first `n`
characters. -/
def strDrop (s : String) (n : Nat) : String :=
  String.mk (s.toList.drop n)

/-- Splitting a character list at a separator character. -/
def splitOnCharAux (sep : Char) : List Char → List Char → List (List Char)
  | [], acc => [acc.reverse]
  | c :: cs, acc =>
    if c = sep then acc.reverse :: splitOnCharAux sep cs []
    else splitOnCharAux sep cs (c :: acc)

/-- Models `String.prototype.split` with a one-character separator. -/
def strSplitChar (s : String) (sep : Char) : List String :=
  (splitOnCharAux sep s.toList []).map String.mk

/-- Fuelled splitting of a character list at a multi-character
separator (the fuel is the input length, consumed one character per
step, which makes the recursion structural). -/
def splitOnListAux (sep : List Char) : Nat → List Char → List Char → List (List Char)
  | 0, _, acc => [acc.reverse]
  | _ + 1, [], acc => [acc.reverse]
  | fuel + 1, l@(c :: cs), acc =>
    if sep.isPrefixOf l then acc.reverse :: splitOnListAux sep fuel (l.drop sep.length) []
    else splitOnListAux sep fuel cs (c :: acc)

/-- Models `String.prototype.split` with a non-empty string separator
(an empty separator leaves the string whole; the code never splits on
the empty string). -/
def strSplitStr (s pat : String) : List String :=
  if pat.toList.isEmpty then [s]
  else (splitOnListAux pat.toList s.toList.length s.toList []).map String.mk

/-- Splits an absolute path string into its non-empty segments,
mirroring how `path` treats `/`-separated absolute paths. -/
def splitPath (p : String) : List String :=
  (strSplitChar p '/').filter (fun s => s ≠ "")

/-- Renders an absolute path from its segments (inverse of `splitPath`
for normalized absolute paths). -/
def joinSegs (segs : List String) : String :=
  segs.foldl (fun acc s => acc ++ "/" ++ s) ""

/-- Models `path.resolve(base, rel)`: each `..` segment of the relative
path pops a segment of the base, `.` and empty segments are skipped,
anything else is appended. -/
def resolveSegs (base : List String) (relSegs : List String) : List String :=
  relSegs.foldl
    (fun acc s =>
      if s = "." then acc
      else if s = ".." then acc.dropLast
      else if s = "" then acc
      else acc ++ [s])
    base

/-- Models `path.basename`: the part of the path after the final `/`
(the whole string when it has no `/`). -/
def basename (p : String) : String :=
  (strSplitChar p '/').getLastD ""

/-- Models the truthiness test `path.extname(p)` used by
`resolveImportPath1`: `true` iff the basename has no `.` after its first
character (JS `extname` is the empty string exactly then). -/
def extnameEmpty (p : String) : Bool :=
  match (basename p).toList with
  | [] => true
  | _ :: rest => !(rest.contains '.')

/-- Models JS string coercion of a nullable string under `+`:
`null + s` yields `"null" + s`. -/
def jsStringOfNullable : Option String → String
  | none => "null"
  | some s => s

/-- The probed filesystem, as read-only boolean oracles for
`fs.existsSync` and `fs.statSync(·).isDirectory()`. -/
structure FS where
  ex : String → Bool
  isDir : String → Bool

/-! ### `src/parser/utils/parser.js` -/

/-- Embeds `isLocalImport` from `utils/parser.js` (and `utils/index.js`):
a source is project-local when it is relative or `@/`-aliased. -/
def isLocalImport (source : String) : Bool :=
  strStartsWith source "./" || strStartsWith source "../" || strStartsWith source "@/"

/-- The `while` loop of `findProjectRoot`, walking parent directories
looking for a `package.json`; the walk peels the last segment each
iteration, rendered structurally by recursing on the reversed segment
list.  The filesystem root itself is never probed. -/
def findRootGo (fs : FS) : List String → Option (List String)
  | [] => none
  | rev@(_ :: tl) =>
    if fs.ex (joinSegs rev.reverse ++ "/package.json") then some rev.reverse
    else findRootGo fs tl

/-- Embeds `findProjectRoot` from `utils/parser.js`: nearest ancestor directory
of the current file holding a `package.json`, defaulting to the file's
own directory. -/
def findProjectRoot (fs : FS) (currentFilePath : String) : List String :=
  (findRootGo fs (splitPath currentFilePath).dropLast.reverse).getD
    (splitPath currentFilePath).dropLast

/-- The candidate base path `resolvedPath` computed by
`resolveImportPath1` before extension probing: relative sources resolve
against the importing file's directory, `@/` sources against
`<projectRoot>/src` (the code's `source.replace('@/', 'src/')`). -/
def candidateBase (fs : FS) (source : String) (currentFilePath : String) : String :=
  if strStartsWith source "./" || strStartsWith source "../" then
    joinSegs (resolveSegs (splitPath currentFilePath).dropLast (strSplitChar source '/'))
  else
    joinSegs (resolveSegs (findProjectRoot fs currentFilePath)
      (strSplitChar ("src/" ++ strDrop source 2) '/'))

/-- The ordered extension list probed by `resolveImportPath1`. -/
def extensions : List String := [".ts", ".tsx", ".js", ".jsx"]

/-- Embeds `resolveImportPath1` from `utils/parser.js`: non-local sources pass
through unchanged; local sources resolve to a candidate base, then an
explicit extension is checked directly, an extensionless base is probed
against `extensions` in order, and a directory falls back to an `index`
file; a miss returns `none` (JS `null`). -/
def resolveImportPath1 (fs : FS) (source : String) (currentFilePath : String) :
    Option String :=
  if !isLocalImport source then some source
  else
    let basePath := candidateBase fs source currentFilePath
    if !extnameEmpty basePath then
      if fs.ex basePath then some basePath else none
    else
      match extensions.find? (fun ext => fs.ex (basePath ++ ext)) with
      | some ext => some (basePath ++ ext)
      | none =>
        if fs.ex basePath && fs.isDir basePath then
          match extensions.find? (fun ext => fs.ex (basePath ++ "/index" ++ ext)) with
          | some ext => some (basePath ++ "/index" ++ ext)
          | none => none
        else none

/-- Embeds `getFileNameInProject` from `utils/parser.js`: trims an absolute
path down to its project-relative suffix when it contains the project
name (`null` passes through). -/
def getFileNameInProject (filePath : Option String) (projectName : String) :
    Option String :=
  match filePath with
  | none => none
  | some p =>
    if strStartsWith p projectName then some p
    else if (strSplitStr p projectName).length > 1 then
      some (projectName ++ ((strSplitStr p projectName).getD 1 ""))
    else some p

/-- Embeds `resolveImportPath` from `utils/parser.js` (the resolver the claims
designate for the import pipeline): `resolveImportPath1` followed by
`getFileNameInProject`; the code's default `projectName` is
`"ant-design-pro"`. -/
def resolveImportPath (fs : FS) (source : String) (currentFilePath : String)
    (projectName : String) : Option String :=
  getFileNameInProject (resolveImportPath1 fs source currentFilePath) projectName

/-! ### Babel AST model

The traversal in `extractFromAST` installs handlers for import/export
declarations, function declarations, arrow functions and class
declarations, and Babel visits every node of the tree.  `BNode` models
exactly the node shapes those handlers and their helpers inspect; every
other construct is a `group` of its children.  An arrow function whose
parent is a `VariableDeclarator` with an `Identifier` id is modelled by
`arrowFn (some name)`, an arrow in any other position by
`arrowFn none`. -/

/-- The `superClass` shapes `isReactComponent` distinguishes: a bare
identifier, a member expression of two identifiers, or anything else. -/
inductive SuperRef where
  | sid (name : String)
  | smember (obj prop : String)
  | sother
deriving DecidableEq

/-- Parameter shapes distinguished by `extractFunction`. -/
inductive PKind where
  | pident (name : String)
  | pobject
  | parray
  | pcomplex
deriving DecidableEq

/-- Import specifier shapes distinguished by the `ImportDeclaration`
handler. -/
inductive RawSpec where
  | defaultSpec (localName : String)
  | namedSpec (imported localName : String)
  | namespaceSpec (localName : String)
deriving DecidableEq

/-- Class member shapes distinguished by `extractClass`: a
`ClassMethod` with identifier key, a `ClassProperty` with identifier
key, or anything else (skipped). -/
inductive Member where
  | method (name kind : String) (line : Nat) (isStatic isAsync : Bool)
  | property (name : String) (line : Nat) (isStatic hasValue : Bool)
  | otherMember
deriving DecidableEq

mutual

inductive BNode where
  | importDecl (source : String) (line : Nat) (specs : List RawSpec)
  | exportNamed (name : Option String) (line : Nat) (decl : BNodeList)
  | exportDefault (name : Option String) (line : Nat) (decl : BNodeList)
  | funcDecl (id : Option String) (startLine endLine : Nat) (isAsync : Bool)
      (params : List PKind) (body : BNodeList)
  | arrowFn (binding : Option String) (startLine endLine : Nat) (isAsync : Bool)
      (params : List PKind) (body : BNodeList)
  | classDecl (id : String) (superClass : Option SuperRef) (startLine endLine : Nat)
      (members : List Member) (body : BNodeList)
  | identRef (name : String)
  | jsxElem (tag : String) (children : BNodeList)
  | jsxFrag (children : BNodeList)
  | jsxTextNode (text : String)
  | strLit (text : String)
  | group (children : BNodeList)

inductive BNodeList where
  | nil
  | cons (head : BNode) (tail : BNodeList)

end

/-- Reads `node.id?.name` of a function declaration. -/
def BNode.idName : BNode → Option String
  | .funcDecl id _ _ _ _ _ => id
  | .classDecl id _ _ _ _ _ => some id
  | _ => none

/-- Reads `node.loc.start.line` (Babel lines are 1-based; `0` stands for the
absent location of node kinds the extractors never receive). -/
def BNode.startLineOf : BNode → Nat
  | .funcDecl _ s _ _ _ _ => s
  | .arrowFn _ s _ _ _ _ => s
  | .classDecl _ _ s _ _ _ => s
  | _ => 0

/-- Reads `node.loc.end.line`. -/
def BNode.endLineOf : BNode → Nat
  | .funcDecl _ _ e _ _ _ => e
  | .arrowFn _ _ e _ _ _ => e
  | .classDecl _ _ _ e _ _ => e
  | _ => 0

/-- Reads `node.async || false`. -/
def BNode.isAsyncOf : BNode → Bool
  | .funcDecl _ _ _ a _ _ => a
  | .arrowFn _ _ _ a _ _ => a
  | _ => false

/-- Reads `node.params`. -/
def BNode.paramsOf : BNode → List PKind
  | .funcDecl _ _ _ _ p _ => p
  | .arrowFn _ _ _ _ p _ => p
  | _ => []

/-- Reads `node.body` as the child list the analyzers walk. -/
def BNode.bodyOf : BNode → BNodeList
  | .funcDecl _ _ _ _ _ b => b
  | .arrowFn _ _ _ _ _ b => b
  | .classDecl _ _ _ _ _ b => b
  | _ => .nil

mutual

/-- Models `JSON.stringify(node)` as far as `returnsJSX` inspects it:
each node contributes its Babel type tag and its literal payloads, and a
child's serialization is a contiguous substring of its parent's. -/
def serializeNode : BNode → String
  | .importDecl src _ _ => "ImportDeclaration(" ++ src ++ ")"
  | .exportNamed n _ d => "ExportNamedDeclaration(" ++ n.getD "" ++ "," ++ serializeList d ++ ")"
  | .exportDefault n _ d => "ExportDefaultDeclaration(" ++ n.getD "" ++ "," ++ serializeList d ++ ")"
  | .funcDecl id _ _ _ _ body => "FunctionDeclaration(" ++ id.getD "" ++ "," ++ serializeList body ++ ")"
  | .arrowFn _ _ _ _ _ body => "ArrowFunctionExpression(" ++ serializeList body ++ ")"
  | .classDecl id _ _ _ _ body => "ClassDeclaration(" ++ id ++ "," ++ serializeList body ++ ")"
  | .identRef n => "Identifier(" ++ n ++ ")"
  | .jsxElem tag ch => "JSXElement(" ++ tag ++ "," ++ serializeList ch ++ ")"
  | .jsxFrag ch => "JSXFragment(" ++ serializeList ch ++ ")"
  | .jsxTextNode t => "JSXText(" ++ t ++ ")"
  | .strLit t => "StringLiteral(" ++ t ++ ")"
  | .group ch => "Node(" ++ serializeList ch ++ ")"

def serializeList : BNodeList → String
  | .nil => ""
  | .cons h t => serializeNode h ++ "," ++ serializeList t

end

/-- Embeds `returnsJSX` from `utils/index.js`: stringify the node and look for
the three JSX markers as substrings. -/
def returnsJSX (node : BNode) : Bool :=
  let nodeStr := serializeNode node
  strContains nodeStr "JSXElement" || strContains nodeStr "JSXFragment" ||
    strContains nodeStr "JSXText"

/-- Embeds `isReactComponent` from `utils/index.js`: the superclass is
`Component`/`PureComponent` or `React.Component`/`React.PureComponent`. -/
def isReactComponent (superClass : Option SuperRef) : Bool :=
  match superClass with
  | none => false
  | some (.sid n) => n = "Component" || n = "PureComponent"
  | some (.smember o p) => o = "React" && (p = "Component" || p = "PureComponent")
  | some .sother => false

mutual

/-- The structural (spec-side) markup predicate: a markup-element or
markup-fragment construct occurs somewhere in the node. -/
def containsJSXNode : BNode → Bool
  | .importDecl _ _ _ => false
  | .exportNamed _ _ d => containsJSXList d
  | .exportDefault _ _ d => containsJSXList d
  | .funcDecl _ _ _ _ _ body => containsJSXList body
  | .arrowFn _ _ _ _ _ body => containsJSXList body
  | .classDecl _ _ _ _ _ body => containsJSXList body
  | .identRef _ => false
  | .jsxElem _ _ => true
  | .jsxFrag _ => true
  | .jsxTextNode _ => false
  | .strLit _ => false
  | .group ch => containsJSXList ch

def containsJSXList : BNodeList → Bool
  | .nil => false
  | .cons h t => containsJSXNode h || containsJSXList t

end

mutual

/-- The recursive `collectIdentifiers` walk of `analyzeUsedImports`:
every `Identifier` or `JSXIdentifier` name reachable in the subtree, in
traversal order (a markup element's tag is its `JSXIdentifier`). -/
def collectIdentifiersNode : BNode → List String
  | .importDecl _ _ _ => []
  | .exportNamed _ _ d => collectIdentifiersList d
  | .exportDefault _ _ d => collectIdentifiersList d
  | .funcDecl id _ _ _ params body =>
    (match id with | some n => [n] | none => []) ++
      (params.filterMap (fun p => match p with | .pident n => some n | _ => none)) ++
      collectIdentifiersList body
  | .arrowFn _ _ _ _ params body =>
    (params.filterMap (fun p => match p with | .pident n => some n | _ => none)) ++
      collectIdentifiersList body
  | .classDecl id _ _ _ _ body => [id] ++ collectIdentifiersList body
  | .identRef n => [n]
  | .jsxElem tag ch => [tag] ++ collectIdentifiersList ch
  | .jsxFrag ch => collectIdentifiersList ch
  | .jsxTextNode _ => []
  | .strLit _ => []
  | .group ch => collectIdentifiersList ch

def collectIdentifiersList : BNodeList → List String
  | .nil => []
  | .cons h t => collectIdentifiersNode h ++ collectIdentifiersList t

end

/-! ### Per-file result records (`parseReactFile`'s `result` object) -/

/-- One entry of `importInfo.specifiers` (the v2 handler attaches a
`resolvedPath` to default and named specifiers; a namespace specifier
has none). -/
structure ImportSpec where
  type : String
  imported : String
  localBinding : String
  resolvedPath : Option String
deriving DecidableEq

/-- One entry of `result.imports`. -/
structure ImportInfo where
  source : String
  line : Nat
  specifiers : List ImportSpec
deriving DecidableEq

/-- One entry of `result.dependencies`. -/
structure DependencyRecord where
  source : String
  resolvedPath : Option String
  imports : List ImportSpec
deriving DecidableEq

/-- One entry of `result.exports`; `name` is the declaration name the
`extractExport` branches compute (absent when none of them applies). -/
structure ExportRecord where
  type : String
  line : Nat
  name : Option String
deriving DecidableEq

/-- One entry of `result.comments` (the mapped Babel comment). -/
structure CommentInfo where
  type : String
  content : String
  line : Nat
  column : Nat
  endLine : Nat
  endColumn : Nat
deriving DecidableEq

/-- One entry of `associatedComments`. -/
structure AssocComment where
  type : String
  content : String
  line : Nat
  position : String
deriving DecidableEq

/-- One entry of `usedImports` as produced by `analyzeUsedImports`. -/
structure UsedImport where
  source : String
  imported : String
  localBinding : String
  type : String
  resolvedPath : Option String
  importLine : Nat
deriving DecidableEq

/-- One entry of `functionInfo.params`. -/
structure ParamInfo where
  name : String
  type : String
deriving DecidableEq

/-- One entry of `classInfo.methods`. -/
structure MethodInfo where
  name : String
  type : String
  line : Nat
  isStatic : Bool
  isAsync : Bool
deriving DecidableEq

/-- One entry of `classInfo.properties`. -/
structure PropertyInfo where
  name : String
  line : Nat
  isStatic : Bool
  hasValue : Bool
deriving DecidableEq

/-- One entry of a definition's `jsx` list (always left empty by the v2
extractors but read by `getForwardReferences`). -/
structure JsxRef where
  type : String
  name : String
  line : Nat
deriving DecidableEq

/-- The record `extractFunction` pushes onto `result.functions`.
`codeBlock` is `none` when the code leaves the field unset. -/
structure FunctionInfo where
  type : String
  name : String
  startLine : Nat
  endLine : Nat
  params : List ParamInfo
  isComponent : Bool
  scopePath : Option String
  isTopLevel : Bool
  qualifiedName : String
  usedImports : List UsedImport
  isAsync : Bool
  isExported : Bool
  exportType : Option String
  calls : List String
  codeBlock : Option String
  associatedComments : List AssocComment
deriving DecidableEq

/-- The record `extractClass` pushes onto `result.components`. -/
structure ClassInfo where
  type : String
  name : String
  startLine : Nat
  endLine : Nat
  isComponent : Bool
  isReactComponent : Bool
  componentType : Option String
  methods : List MethodInfo
  properties : List PropertyInfo
  superClass : Option String
  scopePath : Option String
  isTopLevel : Bool
  qualifiedName : String
  jsx : List JsxRef
  isExported : Bool
  exportType : Option String
  codeBlock : String
deriving DecidableEq

/-- The per-file `result` object of `parseReactFile` (v2).  The JS
error object omits several fields; the model fills them with defaults
(`""` / `false` / `0`), and `error = none` marks success. -/
structure FileResult where
  filePath : String
  chunkId : String
  fileName : String
  fileType : String
  isJSX : Bool
  content : String
  totalLines : Nat
  imports : List ImportInfo
  exports : List ExportRecord
  components : List ClassInfo
  functions : List FunctionInfo
  comments : List CommentInfo
  dependencies : List DependencyRecord
  error : Option String
deriving DecidableEq

/-! ### `src/parser/src/encoder/dependencies/index.js` -/

/-- The value stored in `analyzeUsedImports`' `importMap` for one local
binding. -/
structure ImportMapEntry where
  source : String
  imported : String
  type : String
  resolvedPath : Option String
  line : Nat
deriving DecidableEq

/-- JS `Map.prototype.set`: overwrite the value of an existing key in
place, otherwise append the new binding. -/
def mapSet (m : List (String × ImportMapEntry)) (k : String) (v : ImportMapEntry) :
    List (String × ImportMapEntry) :=
  if m.any (fun p => p.1 = k) then
    m.map (fun p => if p.1 = k then (k, v) else p)
  else m ++ [(k, v)]

/-- JS `Map.prototype.get` (with `has` folded in as `Option`). -/
def lookupMap (m : List (String × ImportMapEntry)) (k : String) :
    Option ImportMapEntry :=
  (m.find? (fun p => p.1 = k)).map (fun p => p.2)

/-- The map value built from one specifier of one import statement. -/
def mkMapEntry (importInfo : ImportInfo) (spec : ImportSpec) : ImportMapEntry :=
  { source := importInfo.source, imported := spec.imported,
    type := spec.type, resolvedPath := spec.resolvedPath,
    line := importInfo.line }

/-- The nested `forEach` of `analyzeUsedImports` that fills `importMap`
(local binding name → import information). -/
def buildImportMap (imports : List ImportInfo) : List (String × ImportMapEntry) :=
  imports.foldl
    (fun m importInfo =>
      importInfo.specifiers.foldl
        (fun m2 spec => mapSet m2 spec.localBinding (mkMapEntry importInfo spec))
        m)
    []

/-- The `(localBinding, entry)` pairs in the order the nested `forEach`
inserts them. -/
def specPairs (imports : List ImportInfo) : List (String × ImportMapEntry) :=
  imports.flatMap
    (fun importInfo =>
      importInfo.specifiers.map
        (fun spec => (spec.localBinding, mkMapEntry importInfo spec)))

/-- All local binding names introduced by the import list (distinct in
any file Babel accepts: duplicate import bindings are a syntax error). -/
def allLocals (imports : List ImportInfo) : List String :=
  imports.flatMap (fun importInfo => importInfo.specifiers.map (fun s => s.localBinding))

/-- JS `Set` insertion order: keep the first occurrence of each
element. -/
def dedupFirst (l : List String) : List String :=
  l.foldl (fun acc x => if acc.contains x then acc else acc ++ [x]) []

/-- The loop body of `analyzeUsedImports`' final `forEach`: skip
identifiers that are not imported bindings, de-duplicate on the
`(source, imported)` pair, otherwise push the used-import record. -/
def usedStep (importMap : List (String × ImportMapEntry)) (acc : List UsedImport)
    (identifier : String) : List UsedImport :=
  match lookupMap importMap identifier with
  | none => acc
  | some info =>
    if acc.any (fun u => u.source = info.source && u.imported = info.imported) then acc
    else
      acc ++ [{ source := info.source, imported := info.imported,
                localBinding := identifier, type := info.type,
                resolvedPath := info.resolvedPath, importLine := info.line }]

/-- Embeds `analyzeUsedImports` from `src/encoder/dependencies/index.js`:
collect the identifiers used in the function body, match them against
the import map, and emit one `usedImports` entry per new
`(source, imported)` pair. -/
def analyzeUsedImports (node : BNode) (imports : List ImportInfo) : List UsedImport :=
  let importMap := buildImportMap imports
  let usedIdentifiers := dedupFirst (collectIdentifiersList node.bodyOf)
  usedIdentifiers.foldl (usedStep importMap) []

/-- Whether a used-import list already holds an entry for a
`(source, imported)` pair (the `find` in `analyzeUsedImports`). -/
def hasPairB (acc : List UsedImport) (s i : String) : Bool :=
  acc.any (fun u => u.source = s && u.imported = i)

/-- Whether one identifier hits the import map at a given
`(source, imported)` pair. -/
def lookupHit (importMap : List (String × ImportMapEntry)) (s i : String)
    (x : String) : Bool :=
  match lookupMap importMap x with
  | some info => info.source = s && info.imported = i
  | none => false

/-- The spec-side reference condition: some specifier of some import of
source `s` imports symbol `i` under a local binding that occurs among
the collected identifiers. -/
def pairReferenced (imports : List ImportInfo) (ids : List String) (s i : String) :
    Bool :=
  imports.any
    (fun importInfo => importInfo.source = s &&
      importInfo.specifiers.any
        (fun sp => sp.imported = i && ids.contains sp.localBinding))

/-! ### The extractors of `parseReact.js` (version 2) -/

/-- The qualified-name template shared by `extractFunction`,
`extractClass` and `createDefinitionJson`:
`fileName :: [scopePath.] name`. -/
def mkQualifiedName (fileName : String) (scopePath : Option String) (name : String) :
    String :=
  match scopePath with
  | some sp => fileName ++ "::" ++ sp ++ "." ++ name
  | none => fileName ++ "::" ++ name

/-- The `lines.slice(startLine-1, endLine).join('\n')` step that fills
`codeBlock`, guarded exactly like the code (`none` when the bounds
check fails; Babel lines are 1-based). -/
def sliceLines (lines : List String) (startLine endLine : Nat) : Option String :=
  if 1 ≤ startLine && decide (endLine - 1 < lines.length) then
    some (joinLines ((lines.drop (startLine - 1)).take (endLine + 1 - startLine)))
  else none
where
  /- `Array.prototype.join('\n')`. -/
  joinLines : List String → String
    | [] => ""
    | h :: t => t.foldl (fun acc s => acc ++ "\n" ++ s) h

/-- Embeds `extractFunctionComments`: comments inside the span are `inside`,
comments ending on the line before it or starting within three lines
above it are `leading`. -/
def extractFunctionComments (node : BNode) (allComments : List CommentInfo) :
    List AssocComment :=
  let functionStartLine := node.startLineOf
  let functionEndLine := node.endLineOf
  if allComments.isEmpty then []
  else
    allComments.foldl
      (fun acc comment =>
        if functionStartLine ≤ comment.line && comment.line ≤ functionEndLine then
          acc ++ [{ type := comment.type, content := comment.content,
                    line := comment.line, position := "inside" }]
        else if comment.endLine ≠ 0 && comment.endLine = functionStartLine - 1 then
          acc ++ [{ type := comment.type, content := comment.content,
                    line := comment.line, position := "leading" }]
        else if functionStartLine - 3 ≤ comment.line && comment.line < functionStartLine then
          acc ++ [{ type := comment.type, content := comment.content,
                    line := comment.line, position := "leading" }]
        else acc)
      []

/-- Models `Array.prototype.join('.')` on the scope stack. -/
def joinScope (st : List String) : String :=
  match st with
  | [] => ""
  | h :: t => t.foldl (fun acc s => acc ++ "." ++ s) h

/-- The `params.map` step of `extractFunction`. -/
def mkParamInfo : PKind → ParamInfo
  | .pident n => { name := n, type := "simple" }
  | .pobject => { name := "destructured", type := "object" }
  | .parray => { name := "destructured", type := "array" }
  | .pcomplex => { name := "unknown", type := "complex" }

/-- Embeds `extractFunction` from `parseReact.js` (v2, lines 997–1058): build
the `functionInfo` record and append it to `result.functions`. -/
def extractFunction (node : BNode) (r : FileResult) (funcType : String)
    (name : Option String) (content : String) (lines : List String)
    (scopePath : Option String) : FileResult :=
  let functionName := name.getD (node.idName.getD "anonymous")
  let fileName := r.fileName
  let qualifiedName := mkQualifiedName fileName scopePath functionName
  let codeBlock : Option String :=
    if content ≠ "" && decide (0 < lines.length) then
      sliceLines lines node.startLineOf node.endLineOf
    else none
  let functionInfo : FunctionInfo :=
    { type := funcType, name := functionName,
      startLine := node.startLineOf, endLine := node.endLineOf,
      params := node.paramsOf.map mkParamInfo,
      isComponent := false, scopePath := scopePath,
      isTopLevel := scopePath.isNone, qualifiedName := qualifiedName,
      usedImports := analyzeUsedImports node r.imports,
      isAsync := node.isAsyncOf, isExported := false, exportType := none,
      calls := [], codeBlock := codeBlock,
      associatedComments := extractFunctionComments node r.comments }
  { r with functions := r.functions ++ [functionInfo] }

/-- The `superClass` rendering of `extractClass` (identifier name, or
`object.property` for a member expression). -/
def superClassName : Option SuperRef → Option String
  | none => none
  | some (.sid n) => some n
  | some (.smember o p) => some (o ++ "." ++ p)
  | some .sother => none

/-- The method/property projection of `extractClass`. -/
def classMembers (members : List Member) : List MethodInfo × List PropertyInfo :=
  members.foldl
    (fun acc m =>
      match m with
      | .method n k l s a => (acc.1 ++ [{ name := n, type := k, line := l, isStatic := s, isAsync := a }], acc.2)
      | .property n l s h => (acc.1, acc.2 ++ [{ name := n, line := l, isStatic := s, hasValue := h }])
      | .otherMember => acc)
    ([], [])

/-- Embeds `extractClass` from `parseReact.js` (v2, lines 1111–1193): build the
`classInfo` record — `isComponent` comes from `isReactComponent` — and
append it to `result.components`. -/
def extractClass (node : BNode) (r : FileResult) (scopePath : Option String)
    (content : String) (lines : List String) : FileResult :=
  match node with
  | .classDecl id superClass startLine endLine members _body =>
    let isReactComp := isReactComponent superClass
    let qualifiedName := mkQualifiedName r.fileName scopePath id
    let codeBlock : String :=
      if content ≠ "" && decide (0 < lines.length) then
        (sliceLines lines startLine endLine).getD ""
      else ""
    let ms := classMembers members
    let classInfo : ClassInfo :=
      { type := "class", name := id, startLine := startLine, endLine := endLine,
        isComponent := isReactComp, isReactComponent := isReactComp,
        componentType := if isReactComp then some "class" else none,
        methods := ms.1, properties := ms.2,
        superClass := superClassName superClass,
        scopePath := scopePath, isTopLevel := scopePath.isNone,
        qualifiedName := qualifiedName, jsx := [],
        isExported := false, exportType := none, codeBlock := codeBlock }
    { r with components := r.components ++ [classInfo] }
  | _ => r

/-- Embeds `extractExport` from `parseReact.js` (v2, lines 972–992); `name` is
the declaration name its branches extract. -/
def extractExport (name : Option String) (line : Nat) (ty : String)
    (r : FileResult) : FileResult :=
  { r with exports := r.exports ++ [{ type := ty, line := line, name := name }] }

/-- The `ImportDeclaration` handler of `extractFromAST` (v2): record the
record with per-specifier resolved paths, and a `dependencies` entry
when the source is local. -/
def handleImport (fs : FS) (source : String) (line : Nat) (specs : List RawSpec)
    (r : FileResult) : FileResult :=
  let specifiers := specs.map (fun s =>
    match s with
    | .defaultSpec l =>
      { type := "default", imported := "default", localBinding := l,
        resolvedPath := resolveImportPath fs source r.filePath "ant-design-pro" }
    | .namedSpec i l =>
      { type := "named", imported := i, localBinding := l,
        resolvedPath := resolveImportPath fs source r.filePath "ant-design-pro" }
    | .namespaceSpec l =>
      { type := "namespace", imported := "*", localBinding := l,
        resolvedPath := none })
  let importInfo : ImportInfo := { source := source, line := line, specifiers := specifiers }
  let r1 := { r with imports := r.imports ++ [importInfo] }
  if isLocalImport source then
    { r1 with
      dependencies := r1.dependencies ++
        [{ source := source,
           resolvedPath := resolveImportPath fs source r.filePath "ant-design-pro",
           imports := specifiers }] }
  else r1

mutual

/-- One step of the Babel traversal of `extractFromAST` (v2): the enter
handler runs, the children are visited with the possibly-pushed scope
stack, and the exit handler pops.  Returns the scope stack and result
after the node has been fully visited. -/
def visitNode (fs : FS) (content : String) (lines : List String) :
    BNode → List String → FileResult → List String × FileResult
  | .importDecl source line specs, st, r => (st, handleImport fs source line specs r)
  | .exportNamed name line decl, st, r =>
    visitList fs content lines decl st (extractExport name line "named" r)
  | .exportDefault name line decl, st, r =>
    visitList fs content lines decl st (extractExport name line "default" r)
  | .funcDecl id sl el ia ps body, st, r =>
    let funcName := id.getD "anonymous"
    let currentScope := if 0 < st.length then some (joinScope st) else none
    let r1 := extractFunction (.funcDecl id sl el ia ps body) r "function" none
      content lines currentScope
    let res := visitList fs content lines body (st ++ [funcName]) r1
    (res.1.dropLast, res.2)
  | .arrowFn (some funcName) sl el ia ps body, st, r =>
    let currentScope := if 0 < st.length then some (joinScope st) else none
    let r1 := extractFunction (.arrowFn (some funcName) sl el ia ps body) r "arrow"
      (some funcName) content lines currentScope
    let res := visitList fs content lines body (st ++ [funcName]) r1
    (res.1.dropLast, res.2)
  | .arrowFn none _ _ _ _ body, st, r => visitList fs content lines body st r
  | .classDecl id sc sl el mem body, st, r =>
    let currentScope := if 0 < st.length then some (joinScope st) else none
    let r1 := extractClass (.classDecl id sc sl el mem body) r currentScope content lines
    let res := visitList fs content lines body (st ++ [id]) r1
    (res.1.dropLast, res.2)
  | .identRef _, st, r => (st, r)
  | .jsxElem _ ch, st, r => visitList fs content lines ch st r
  | .jsxFrag ch, st, r => visitList fs content lines ch st r
  | .jsxTextNode _, st, r => (st, r)
  | .strLit _, st, r => (st, r)
  | .group ch, st, r => visitList fs content lines ch st r

/-- Visit a sibling list left to right, threading scope stack and
result. -/
def visitList (fs : FS) (content : String) (lines : List String) :
    BNodeList → List String → FileResult → List String × FileResult
  | .nil, st, r => (st, r)
  | .cons h t, st, r =>
    let res := visitNode fs content lines h st r
    visitList fs content lines t res.1 res.2

end

/-- A parsed file as handed to `extractFromAST`: the Babel comments
(already in mapped shape) and the program body. -/
structure AST where
  comments : List CommentInfo
  body : BNodeList

/-- Embeds `extractFromAST` from `parseReact.js` (v2, lines 836–967): record
the comments (when `preserveComments` is on) and run the traversal with
an initially empty scope stack. -/
def extractFromAST (fs : FS) (preserveComments : Bool) (ast : AST)
    (r : FileResult) (lines : List String) (content : String) : FileResult :=
  let r1 := if preserveComments then { r with comments := ast.comments } else r
  (visitList fs content lines ast.body [] r1).2

/-- Embeds `parseReactFile` from `parseReact.js` (v2, lines 748–827).  Babel's
parser is the `parse` parameter; the `catch` branch becomes the
`.error` arm, returning the error record with the message and empty
lists (fields the JS error object omits are defaulted). -/
def parseReactFile (fs : FS) (parse : String → Except String AST)
    (preserveComments : Bool) (filePath : String) (content : String) : FileResult :=
  match parse content with
  | .error msg =>
    { filePath := filePath, chunkId := "", fileName := basename filePath,
      fileType := "", isJSX := false, content := content, totalLines := 0,
      imports := [], exports := [], components := [], functions := [],
      comments := [], dependencies := [], error := some msg }
  | .ok ast =>
    let isTypeScript := strEndsWith filePath ".tsx" || strEndsWith filePath ".ts"
    let isJSX := strContains filePath "jsx" || strContains filePath "tsx" ||
      (strContains content "<" && strContains content ">")
    let lines := strSplitChar content '\n'
    let r : FileResult :=
      { filePath := filePath, chunkId := filePath, fileName := basename filePath,
        fileType := if isTypeScript then "typescript" else "javascript",
        isJSX := isJSX, content := content, totalLines := lines.length,
        imports := [], exports := [], components := [], functions := [],
        comments := [], dependencies := [], error := none }
    extractFromAST fs preserveComments ast r lines content

/-! ### Per-definition emission (`createDefinitionJson`, v2) -/

/-- The definition object handed to `createDefinitionJson` /
`getForwardReferences` (functions, classes and export records share
this shape in JS; fields a given record lacks are `Option`s). -/
structure DefnData where
  type : String
  name : String
  scopePath : Option String
  isTopLevel : Bool
  startLine : Nat
  endLine : Nat
  codeBlock : Option String
  description : Option String
  associatedComments : List AssocComment
  isExported : Bool
  exportType : Option String
  usedImports : List UsedImport
  jsx : List JsxRef
deriving DecidableEq

/-- One entry of `dependencyInfo.forwardReferences`: an `import`
reference or a `jsx_element` reference (fields the other shape lacks
are `none`). -/
structure ForwardRef where
  type : String
  source : String
  imported : Option String
  localBinding : Option String
  resolvedPath : Option String
  component : Option String
  line : Nat
deriving DecidableEq

/-- The shape of a `backwardReferences` entry.  Modelled from the spec:
the code never constructs one (a BackwardEdge records the source
definition's qualified name, the edge kind and the line), and the
repository README documents the global linking pass that would fill
it. -/
structure BackRef where
  sourceQualifiedName : String
  kind : String
  line : Nat
deriving DecidableEq

/-- Embeds `getForwardReferences` from `parseReact.js` (v2, lines 1558–1590):
one reference per local used import — whose `resolvedPath` is the JS
string concatenation `imp.resolvedPath + '::' + imp.local` — plus
`jsx_element` references for component definitions. -/
def getForwardReferences (definition : DefnData) : List ForwardRef :=
  let importRefs :=
    (definition.usedImports.filter (fun imp => isLocalImport imp.source)).map
      (fun imp =>
        { type := "import", source := imp.source, imported := some imp.imported,
          localBinding := some imp.localBinding,
          resolvedPath := some (jsStringOfNullable imp.resolvedPath ++ "::" ++ imp.localBinding),
          component := none, line := imp.importLine })
  let jsxRefs :=
    if definition.type = "component" then
      (definition.jsx.filter (fun e => e.type = "component")).map
        (fun e =>
          { type := "jsx_element", source := "local", imported := none,
            localBinding := none, resolvedPath := none,
            component := some e.name, line := e.line })
    else []
  importRefs ++ jsxRefs

/-- Shape of `fileMetadata` of an emitted definition record. -/
structure FileMetadata where
  chunkId : String
  filePath : String
  fileName : String
  fileType : String
  isJSX : Bool
  totalLines : Nat
  repositoryName : String
  version : String
  branch : String
deriving DecidableEq

/-- Shape of `definitionInfo.exportInfo` of an emitted definition record. -/
structure ExportInfoOut where
  isExported : Bool
  type : Option String
deriving DecidableEq

/-- Shape of `definitionInfo` of an emitted definition record. -/
structure DefinitionInfoOut where
  comments : List AssocComment
  name : String
  qualifiedName : String
  definitionType : String
  scopePath : Option String
  isTopLevel : Bool
  startLine : Nat
  endLine : Nat
  codeBlock : String
  description : Option String
  exportInfo : ExportInfoOut
deriving DecidableEq

/-- Shape of `dependencyInfo` of an emitted definition record. -/
structure DependencyInfoOut where
  forwardReferences : List ForwardRef
  backwardReferences : List BackRef
  usedImports : List UsedImport
deriving DecidableEq

/-- A full emitted definition record. -/
structure DefinitionJson where
  fileMetadata : FileMetadata
  definitionInfo : DefinitionInfoOut
  dependencyInfo : DependencyInfoOut
deriving DecidableEq

/-- Embeds `createDefinitionJson` from `parseReact.js` (v2, lines 1509–1553):
assemble the emitted record for one definition.  `backwardReferences`
is the hard-coded empty list (the code's comment: it would need global
analysis). -/
def createDefinitionJson (result : FileResult) (definition : DefnData)
    (dtype : String) : DefinitionJson :=
  let qualifiedName :=
    mkQualifiedName result.fileName definition.scopePath definition.name
  { fileMetadata :=
      { chunkId := result.filePath ++ "::" ++ ((strSplitStr qualifiedName "::").getD 1 ""),
        filePath := result.filePath, fileName := result.fileName,
        fileType := result.fileType, isJSX := result.isJSX,
        totalLines := result.totalLines, repositoryName := "CodeWise",
        version := "current", branch := "main" },
    definitionInfo :=
      { comments := definition.associatedComments, name := definition.name,
        qualifiedName := qualifiedName, definitionType := dtype,
        scopePath := definition.scopePath, isTopLevel := definition.isTopLevel,
        startLine := definition.startLine, endLine := definition.endLine,
        codeBlock := definition.codeBlock.getD "",
        description := definition.description,
        exportInfo := { isExported := definition.isExported,
                        type := definition.exportType } },
    dependencyInfo :=
      { forwardReferences := getForwardReferences definition,
        backwardReferences := [],
        usedImports := definition.usedImports } }

/-! ### The v1 component classification (`parseReact.js` lines 342–351) -/

/-- The case test `name[0] === name[0].toUpperCase()` of the v1
`extractFunction` (true for an empty name, since both sides are
`undefined`). -/
def jsFirstCharCaseCheck (name : String) : Bool :=
  match name.toList with
  | [] => true
  | c :: _ => c.toUpper = c

/-- The component-classification tail of the v1 `extractFunction`
(lines 342–348): `isComponent` stays `false` unless the case test
passes, in which case it is `returnsJSX(node)`. -/
def v1ClassifyComponent (name : String) (node : BNode) : Bool :=
  if jsFirstCharCaseCheck name then returnsJSX node else false

/-! ### `parseProjectFolder` (v2, lines 1238–1357) -/

/-- Shape of `summary.fileTypes`. -/
structure FileTypes where
  jsx : Nat
  tsx : Nat
  js : Nat
  ts : Nat
deriving DecidableEq

/-- Shape of `summary.statistics`. -/
structure RunStatistics where
  totalComponents : Nat
  totalFunctions : Nat
  totalClasses : Nat
  totalVariables : Nat
  totalImports : Nat
  totalExports : Nat
deriving DecidableEq

/-- One entry of `summary.files`. -/
structure SummaryFileEntry where
  fileName : String
  filePath : String
  fileType : String
  isJSX : Bool
  components : Nat
  functions : Nat
  imports : Nat
  exports : Nat
deriving DecidableEq

/-- The `project-summary.json` record. -/
structure RunSummary where
  projectPath : String
  totalFiles : Nat
  successCount : Nat
  errorCount : Nat
  fileTypes : FileTypes
  statistics : RunStatistics
  files : List SummaryFileEntry
deriving DecidableEq

/-- Models `path.join(projectPath, file)` for the run loop. -/
def pathJoin (projectPath file : String) : String :=
  projectPath ++ "/" ++ file

/-- The `summary.files` projection of one successful result. -/
def mkSummaryFileEntry (result : FileResult) : SummaryFileEntry :=
  { fileName := result.fileName, filePath := result.filePath,
    fileType := result.fileType, isJSX := result.isJSX,
    components := result.components.length, functions := result.functions.length,
    imports := result.imports.length, exports := result.exports.length }

/-- The per-file loop of `parseProjectFolder`: accumulate successful
results and the success/error counters (a result carrying `error` is
counted and dropped). -/
def runFiles (fs : FS) (parse : String → Except String AST)
    (preserveComments : Bool) (projectPath : String)
    (files : List (String × String)) : List FileResult × Nat × Nat :=
  files.foldl
    (fun acc f =>
      let result := parseReactFile fs parse preserveComments
        (pathJoin projectPath f.1) f.2
      match result.error with
      | some _ => (acc.1, acc.2.1, acc.2.2 + 1)
      | none => (acc.1 ++ [result], acc.2.1 + 1, acc.2.2))
    ([], 0, 0)

/-- The `fileTypes` tally of `parseProjectFolder` (over successful
results only, `else if` chain on the file name suffix). -/
def tallyFileTypes (results : List FileResult) : FileTypes :=
  results.foldl
    (fun acc result =>
      if strEndsWith result.fileName ".jsx" then { acc with jsx := acc.jsx + 1 }
      else if strEndsWith result.fileName ".tsx" then { acc with tsx := acc.tsx + 1 }
      else if strEndsWith result.fileName ".js" then { acc with js := acc.js + 1 }
      else if strEndsWith result.fileName ".ts" then { acc with ts := acc.ts + 1 }
      else acc)
    { jsx := 0, tsx := 0, js := 0, ts := 0 }

/-- The `statistics` tally of `parseProjectFolder`: only
`totalComponents`, `totalFunctions`, `totalImports` and `totalExports`
are ever incremented; `totalClasses` and `totalVariables` keep their
initial `0`. -/
def tallyStatistics (results : List FileResult) : RunStatistics :=
  results.foldl
    (fun acc result =>
      { acc with
        totalComponents := acc.totalComponents + result.components.length,
        totalFunctions := acc.totalFunctions + result.functions.length,
        totalImports := acc.totalImports + result.imports.length,
        totalExports := acc.totalExports + result.exports.length })
    { totalComponents := 0, totalFunctions := 0, totalClasses := 0,
      totalVariables := 0, totalImports := 0, totalExports := 0 }

/-- Embeds `parseProjectFolder` from `parseReact.js` (v2, lines 1238–1357),
modulo the file-writing side effects: parse every matched file, drop
and count failures, and build the summary record. -/
def parseProjectFolder (fs : FS) (parse : String → Except String AST)
    (preserveComments : Bool) (projectPath : String)
    (files : List (String × String)) : RunSummary × List FileResult :=
  let run := runFiles fs parse preserveComments projectPath files
  let results := run.1
  let summary : RunSummary :=
    { projectPath := projectPath, totalFiles := files.length,
      successCount := run.2.1, errorCount := run.2.2,
      fileTypes := tallyFileTypes results,
      statistics := tallyStatistics results,
      files := results.map mkSummaryFileEntry }
  (summary, results)

/-! ### Concrete inputs used by the witnesses and counterexamples -/

/-- A filesystem with no files at all. -/
def fsEmpty : FS := { ex := fun _ => false, isDir := fun _ => false }

/-- A filesystem in which `/p/m.ts` and `/p/m.js` both exist. -/
def fsBoth : FS :=
  { ex := fun s => s = "/p/m.ts" || s = "/p/m.js", isDir := fun _ => false }

/-- An empty per-file result record, used as extractor input. -/
def emptyFileResult : FileResult :=
  { filePath := "/p/a.js", chunkId := "", fileName := "a.js", fileType := "",
    isJSX := false, content := "", totalLines := 0, imports := [], exports := [],
    components := [], functions := [], comments := [], dependencies := [],
    error := none }

/-- A file whose body binds two arrow functions to the same top-level
identifier `f` (as in `if/else` branches assigning `var f = () => …`). -/
def dupNameAST : AST :=
  { comments := [],
    body := .cons (.arrowFn (some "f") 1 1 false [] .nil)
      (.cons (.arrowFn (some "f") 2 2 false [] .nil) .nil) }

/-- A parser that always yields `dupNameAST`. -/
def dupNameParse : String → Except String AST := fun _ => .ok dupNameAST

/-- The extraction of `dupNameAST` from `/p/t.js`. -/
def dupNameResult : FileResult :=
  parseReactFile fsEmpty dupNameParse true "/p/t.js" "x\ny"

/-- A throwaway `FunctionInfo` used as `getD` fallback. -/
def fallbackFunctionInfo : FunctionInfo :=
  { type := "", name := "", startLine := 0, endLine := 0, params := [],
    isComponent := false, scopePath := none, isTopLevel := false,
    qualifiedName := "", usedImports := [], isAsync := false,
    isExported := false, exportType := none, calls := [], codeBlock := none,
    associatedComments := [] }

/-- A file holding one React class component and one plain function. -/
def classFileAST : AST :=
  { comments := [],
    body := .cons (.classDecl "Foo" (some (.sid "Component")) 1 2 [] .nil)
      (.cons (.funcDecl (some "bar") 3 4 false [] .nil) .nil) }

/-- A parser that always yields `classFileAST`. -/
def classFileParse : String → Except String AST := fun _ => .ok classFileAST

/-- A run over the single class-bearing file. -/
def classRun : RunSummary × List FileResult :=
  parseProjectFolder fsEmpty classFileParse true "/p" [("a.js", "l1\nl2\nl3\nl4")]

/-- A run in which the single file `a.js` fails to parse with one
message. -/
def failRunA : RunSummary × List FileResult :=
  parseProjectFolder fsEmpty (fun _ => .error "Unexpected token (1:0)") true "/p"
    [("a.js", "(((")]

/-- A run in which a differently named file fails with a different
message. -/
def failRunB : RunSummary × List FileResult :=
  parseProjectFolder fsEmpty (fun _ => .error "Missing semicolon (2:4)") true "/p"
    [("b.jsx", "]]]")]

/-- A markup-free class extending `Component`. -/
def plainComponentClass : BNode :=
  .classDecl "Foo" (some (.sid "Component")) 1 2 [] .nil

/-- An uppercase-named function whose body merely contains the string
literal `"JSXText"`, with no markup construct. -/
def markerStringFn : BNode :=
  .funcDecl (some "Foo") 1 1 false [] (.cons (.strLit "JSXText") .nil)

/-- A used-import record for an unresolved `@/`-aliased default import. -/
def missingImp : UsedImport :=
  { source := "@/components/Missing", imported := "default",
    localBinding := "Missing", type := "default", resolvedPath := none,
    importLine := 1 }

/-- A definition that uses one unresolved `@/`-aliased import. -/
def unresolvedImportDefn : DefnData :=
  { type := "function", name := "Bar", scopePath := none, isTopLevel := true,
    startLine := 1, endLine := 2, codeBlock := none, description := none,
    associatedComments := [], isExported := false, exportType := none,
    usedImports := [missingImp], jsx := [] }

/-- A throwaway `ClassInfo` used as `getD` fallback. -/
def fallbackClassInfo : ClassInfo :=
  { type := "", name := "", startLine := 0, endLine := 0, isComponent := false,
    isReactComponent := false, componentType := none, methods := [],
    properties := [], superClass := none, scopePath := none, isTopLevel := false,
    qualifiedName := "", jsx := [], isExported := false, exportType := none,
    codeBlock := "" }

/-- A function body referencing the identifiers `Button` (twice) and
`helper`. -/
def usedImportsFn : BNode :=
  .funcDecl (some "App") 1 5 false []
    (.cons (.jsxElem "Button" (.cons (.jsxElem "Button" .nil) .nil))
      (.cons (.identRef "helper") .nil))

/-- The import list for `usedImportsFn`: `Button` (default, used),
`helper` (named, used) and `unusedUtil` (named, never referenced). -/
def usedImportsImports : List ImportInfo :=
  [{ source := "./Button", line := 1,
     specifiers := [{ type := "default", imported := "default",
                      localBinding := "Button", resolvedPath := some "/p/Button.js" }] },
   { source := "./utils", line := 2,
     specifiers := [{ type := "named", imported := "helper",
                      localBinding := "helper", resolvedPath := some "/p/utils.js" },
                    { type := "named", imported := "unusedUtil",
                      localBinding := "unusedUtil", resolvedPath := some "/p/utils.js" }] }]

/-- The extraction of `dupNameAST` by `extractFromAST` alone, starting
from the empty result record. -/
def dupExtract : FileResult :=
  extractFromAST fsEmpty true dupNameAST emptyFileResult ["x", "y"] "x\ny"

/-- The first extracted definition of `dupExtract`. -/
def dupFirstFn : FunctionInfo :=
  dupExtract.functions.getD 0 fallbackFunctionInfo

/-- The derivation invariant for an extracted function: its
`qualifiedName` follows the `fileId::scopePath.name` template and
`isTopLevel` mirrors the absence of a scope path. -/
def goodFun (fileName : String) (d : FunctionInfo) : Prop :=
  d.qualifiedName = mkQualifiedName fileName d.scopePath d.name ∧
    d.isTopLevel = d.scopePath.isNone

/-- The derivation invariant for an extracted class. -/
def goodClass (fileName : String) (c : ClassInfo) : Prop :=
  c.qualifiedName = mkQualifiedName fileName c.scopePath c.name ∧
    c.isTopLevel = c.scopePath.isNone

/-! ## Theorems -/

/-! ### Scope-stack balance (shared helpers) -/

mutual

/-- Visiting any node returns the scope stack unchanged: the enter
handlers' pushes are exactly undone by the exit handlers' pops. -/
theorem visitNode_stack (fs : FS) (content : String) (lines : List String)
    (n : BNode) (st : List String) (r : FileResult) :
    (visitNode fs content lines n st r).1 = st := by
  cases n with
  | importDecl source line specs => simp [visitNode]
  | exportNamed name line decl =>
    have h := visitList_stack fs content lines decl st (extractExport name line "named" r)
    simp [visitNode, h]
  | exportDefault name line decl =>
    have h := visitList_stack fs content lines decl st (extractExport name line "default" r)
    simp [visitNode, h]
  | funcDecl id sl el ia ps body =>
    have h : ∀ st' r', (visitList fs content lines body st' r').1 = st' :=
      fun st' r' => visitList_stack fs content lines body st' r'
    simp [visitNode, h]
  | arrowFn binding sl el ia ps body =>
    have h : ∀ st' r', (visitList fs content lines body st' r').1 = st' :=
      fun st' r' => visitList_stack fs content lines body st' r'
    cases binding with
    | some bn => simp [visitNode, h]
    | none => simp [visitNode, h]
  | classDecl id sc sl el mem body =>
    have h : ∀ st' r', (visitList fs content lines body st' r').1 = st' :=
      fun st' r' => visitList_stack fs content lines body st' r'
    simp [visitNode, h]
  | identRef name => simp [visitNode]
  | jsxElem tag ch =>
    have h := visitList_stack fs content lines ch st r
    simp [visitNode, h]
  | jsxFrag ch =>
    have h := visitList_stack fs content lines ch st r
    simp [visitNode, h]
  | jsxTextNode text => simp [visitNode]
  | strLit text => simp [visitNode]
  | group ch =>
    have h := visitList_stack fs content lines ch st r
    simp [visitNode, h]

/-- Visiting a sibling list returns the scope stack unchanged. -/
theorem visitList_stack (fs : FS) (content : String) (lines : List String)
    (l : BNodeList) (st : List String) (r : FileResult) :
    (visitList fs content lines l st r).1 = st := by
  cases l with
  | nil => simp [visitList]
  | cons h t =>
    have h1 := visitNode_stack fs content lines h st r
    have h2 := visitList_stack fs content lines t
      (visitNode fs content lines h st r).1 (visitNode fs content lines h st r).2
    rw [h1] at h2
    simp only [visitList]
    rw [h1]
    exact h2

end

/-- C3: for every file processed by the extraction traversal, the scope
stack is empty when the traversal finishes — `extractFromAST` starts its
walk with `[]`, every enter handler's push (function declarations,
identifier-bound arrow functions and class declarations alike) is undone
by the matching exit handler's pop, and the final stack is again `[]`. -/
theorem c3_scope_stack_balanced (fs : FS) (content : String) (lines : List String)
    (ast : BNodeList) (r : FileResult) :
    (visitList fs content lines ast [] r).1 = [] :=
  visitList_stack fs content lines ast [] r

/-! ### C1: backward references are never populated -/

/-- C1: the emitted record of every Definition carries an empty
BackwardEdge list — `createDefinitionJson` hard-codes
`backwardReferences = []` and no global linking pass exists — so the
record for a default-exported `Foo` used in markup elsewhere cannot
contain the claimed `markup_element` backward edge. -/
theorem c1_backward_references_always_empty (result : FileResult)
    (definition : DefnData) (dtype : String) :
    (createDefinitionJson result definition dtype).dependencyInfo.backwardReferences = [] :=
  rfl

/-! ### C10: single-file parsing never propagates a failure -/

/-- C10: `parseReactFile` is total — the parse failure branch returns
the error record carrying the message together with empty `imports`,
`exports`, `components`, `functions`, `comments` and `dependencies`
lists and the original content. -/
theorem c10_parse_failure_yields_error_record (fs : FS)
    (parse : String → Except String AST) (preserveComments : Bool)
    (filePath content msg : String) (h : parse content = .error msg) :
    parseReactFile fs parse preserveComments filePath content =
      { filePath := filePath, chunkId := "", fileName := basename filePath,
        fileType := "", isJSX := false, content := content, totalLines := 0,
        imports := [], exports := [], components := [], functions := [],
        comments := [], dependencies := [], error := some msg } := by
  simp [parseReactFile, h]

/-! ### C2: qualified-name derivation and (non-)uniqueness -/

theorem handleImport_functions (fs : FS) (source : String) (line : Nat)
    (specs : List RawSpec) (r : FileResult) :
    (handleImport fs source line specs r).functions = r.functions := by
  simp only [handleImport]
  split <;> rfl

theorem handleImport_components (fs : FS) (source : String) (line : Nat)
    (specs : List RawSpec) (r : FileResult) :
    (handleImport fs source line specs r).components = r.components := by
  simp only [handleImport]
  split <;> rfl

theorem handleImport_fileName (fs : FS) (source : String) (line : Nat)
    (specs : List RawSpec) (r : FileResult) :
    (handleImport fs source line specs r).fileName = r.fileName := by
  simp only [handleImport]
  split <;> rfl

theorem extractExport_functions (name : Option String) (line : Nat) (ty : String)
    (r : FileResult) : (extractExport name line ty r).functions = r.functions := rfl

theorem extractExport_components (name : Option String) (line : Nat) (ty : String)
    (r : FileResult) : (extractExport name line ty r).components = r.components := rfl

theorem extractExport_fileName (name : Option String) (line : Nat) (ty : String)
    (r : FileResult) : (extractExport name line ty r).fileName = r.fileName := rfl

theorem extractFunction_components (node : BNode) (r : FileResult) (funcType : String)
    (name : Option String) (content : String) (lines : List String)
    (scopePath : Option String) :
    (extractFunction node r funcType name content lines scopePath).components =
      r.components := rfl

theorem extractFunction_fileName (node : BNode) (r : FileResult) (funcType : String)
    (name : Option String) (content : String) (lines : List String)
    (scopePath : Option String) :
    (extractFunction node r funcType name content lines scopePath).fileName =
      r.fileName := rfl

/-- Every function record present after `extractFunction` either was
already there or satisfies the derivation invariant. -/
theorem extractFunction_good (node : BNode) (r : FileResult) (funcType : String)
    (name : Option String) (content : String) (lines : List String)
    (scopePath : Option String) (fn : String) (hfn : r.fileName = fn)
    (h : ∀ d ∈ r.functions, goodFun fn d) :
    ∀ d ∈ (extractFunction node r funcType name content lines scopePath).functions,
      goodFun fn d := by
  intro d hd
  simp only [extractFunction, List.mem_append, List.mem_singleton] at hd
  rcases hd with hd | hd
  · exact h d hd
  · subst hd
    subst hfn
    exact ⟨rfl, rfl⟩

theorem extractClass_functions (node : BNode) (r : FileResult)
    (scopePath : Option String) (content : String) (lines : List String) :
    (extractClass node r scopePath content lines).functions = r.functions := by
  cases node <;> rfl

theorem extractClass_fileName (node : BNode) (r : FileResult)
    (scopePath : Option String) (content : String) (lines : List String) :
    (extractClass node r scopePath content lines).fileName = r.fileName := by
  cases node <;> rfl

/-- Every class record present after `extractClass` either was already
there or satisfies the derivation invariant. -/
theorem extractClass_good (node : BNode) (r : FileResult) (scopePath : Option String)
    (content : String) (lines : List String) (fn : String) (hfn : r.fileName = fn)
    (h : ∀ c ∈ r.components, goodClass fn c) :
    ∀ c ∈ (extractClass node r scopePath content lines).components, goodClass fn c := by
  cases node with
  | classDecl id sc sl el mem body =>
    intro c hc
    simp only [extractClass, List.mem_append, List.mem_singleton] at hc
    rcases hc with hc | hc
    · exact h c hc
    · subst hc
      subst hfn
      exact ⟨rfl, rfl⟩
  | importDecl source line specs => exact h
  | exportNamed name line decl => exact h
  | exportDefault name line decl => exact h
  | funcDecl id sl el ia ps body => exact h
  | arrowFn b sl el ia ps body => exact h
  | identRef n => exact h
  | jsxElem t ch => exact h
  | jsxFrag ch => exact h
  | jsxTextNode t => exact h
  | strLit t => exact h
  | group ch => exact h

mutual

/-- The traversal only ever appends definition records obeying the
derivation invariant and never changes the file name. -/
theorem visitNode_good (fs : FS) (content : String) (lines : List String)
    (n : BNode) (st : List String) (r : FileResult) (fn : String)
    (hfn : r.fileName = fn) (hf : ∀ d ∈ r.functions, goodFun fn d)
    (hc : ∀ c ∈ r.components, goodClass fn c) :
    (visitNode fs content lines n st r).2.fileName = fn ∧
    (∀ d ∈ (visitNode fs content lines n st r).2.functions, goodFun fn d) ∧
    (∀ c ∈ (visitNode fs content lines n st r).2.components, goodClass fn c) := by
  cases n with
  | importDecl source line specs =>
    simp only [visitNode]
    refine ⟨?_, ?_, ?_⟩
    · rw [handleImport_fileName]; exact hfn
    · rw [handleImport_functions]; exact hf
    · rw [handleImport_components]; exact hc
  | exportNamed name line decl =>
    simp only [visitNode]
    exact visitList_good fs content lines decl st (extractExport name line "named" r)
      fn hfn hf hc
  | exportDefault name line decl =>
    simp only [visitNode]
    exact visitList_good fs content lines decl st (extractExport name line "default" r)
      fn hfn hf hc
  | funcDecl id sl el ia ps body =>
    simp only [visitNode]
    exact visitList_good fs content lines body _ _ fn
      (by rw [extractFunction_fileName]; exact hfn)
      (extractFunction_good _ _ _ _ _ _ _ fn hfn hf)
      (by rw [extractFunction_components]; exact hc)
  | arrowFn binding sl el ia ps body =>
    cases binding with
    | some bn =>
      simp only [visitNode]
      exact visitList_good fs content lines body _ _ fn
        (by rw [extractFunction_fileName]; exact hfn)
        (extractFunction_good _ _ _ _ _ _ _ fn hfn hf)
        (by rw [extractFunction_components]; exact hc)
    | none =>
      simp only [visitNode]
      exact visitList_good fs content lines body st r fn hfn hf hc
  | classDecl id sc sl el mem body =>
    simp only [visitNode]
    exact visitList_good fs content lines body _ _ fn
      (by rw [extractClass_fileName]; exact hfn)
      (by rw [extractClass_functions]; exact hf)
      (extractClass_good _ _ _ _ _ fn hfn hc)
  | identRef name => exact ⟨hfn, hf, hc⟩
  | jsxElem tag ch =>
    simp only [visitNode]
    exact visitList_good fs content lines ch st r fn hfn hf hc
  | jsxFrag ch =>
    simp only [visitNode]
    exact visitList_good fs content lines ch st r fn hfn hf hc
  | jsxTextNode text => exact ⟨hfn, hf, hc⟩
  | strLit text => exact ⟨hfn, hf, hc⟩
  | group ch =>
    simp only [visitNode]
    exact visitList_good fs content lines ch st r fn hfn hf hc

/-- List version of `visitNode_good`. -/
theorem visitList_good (fs : FS) (content : String) (lines : List String)
    (l : BNodeList) (st : List String) (r : FileResult) (fn : String)
    (hfn : r.fileName = fn) (hf : ∀ d ∈ r.functions, goodFun fn d)
    (hc : ∀ c ∈ r.components, goodClass fn c) :
    (visitList fs content lines l st r).2.fileName = fn ∧
    (∀ d ∈ (visitList fs content lines l st r).2.functions, goodFun fn d) ∧
    (∀ c ∈ (visitList fs content lines l st r).2.components, goodClass fn c) := by
  cases l with
  | nil => exact ⟨hfn, hf, hc⟩
  | cons h t =>
    have h1 := visitNode_good fs content lines h st r fn hfn hf hc
    have h2 := visitList_good fs content lines t
      (visitNode fs content lines h st r).1 (visitNode fs content lines h st r).2
      fn h1.1 h1.2.1 h1.2.2
    simp only [visitList]
    exact h2

end

/-- C2 (amended): every Definition a run extracts carries
`qualifiedName = fileId::scopePath.name` derived deterministically, with
`isTopLevel` mirroring the absence of a scope path — but the name is
not guaranteed unique and no collision is surfaced (the result record
has no collision report; colliding records are both appended). -/
theorem c2_qualified_names_derived (fs : FS) (preserveComments : Bool)
    (ast : AST) (r : FileResult) (lines : List String) (content : String)
    (hf0 : r.functions = []) (hc0 : r.components = []) :
    (∀ d ∈ (extractFromAST fs preserveComments ast r lines content).functions,
      d.qualifiedName = mkQualifiedName r.fileName d.scopePath d.name ∧
        d.isTopLevel = d.scopePath.isNone) ∧
    (∀ c ∈ (extractFromAST fs preserveComments ast r lines content).components,
      c.qualifiedName = mkQualifiedName r.fileName c.scopePath c.name ∧
        c.isTopLevel = c.scopePath.isNone) := by
  have hbase : ∀ r1 : FileResult, r1.fileName = r.fileName → r1.functions = [] →
      r1.components = [] →
      (∀ d ∈ (visitList fs content lines ast.body [] r1).2.functions, goodFun r.fileName d) ∧
      (∀ c ∈ (visitList fs content lines ast.body [] r1).2.components, goodClass r.fileName c) := by
    intro r1 h1 h2 h3
    have h := visitList_good fs content lines ast.body [] r1 r.fileName h1
      (by rw [h2]; intro d hd; cases hd)
      (by rw [h3]; intro c hc; cases hc)
    exact ⟨h.2.1, h.2.2⟩
  simp only [extractFromAST]
  split
  · exact hbase { r with comments := ast.comments } rfl hf0 hc0
  · exact hbase r rfl hf0 hc0

/-- Witness for C2's amended theorem: the first definition extracted
from the duplicate-name file satisfies the derivation invariant. -/
theorem c2_qualified_names_derived_witness :
    dupFirstFn.qualifiedName =
      mkQualifiedName emptyFileResult.fileName dupFirstFn.scopePath dupFirstFn.name ∧
    dupFirstFn.isTopLevel = dupFirstFn.scopePath.isNone :=
  (c2_qualified_names_derived fsEmpty true dupNameAST emptyFileResult ["x", "y"]
    "x\ny" rfl rfl).1 dupFirstFn (by decide)

/-- Counterexample to C2 as stated: one run extracts two distinct
Definitions (different source spans) with the identical qualified name
`t.js::f`, and the run's result record carries no collision flag of any
kind — uniqueness fails silently. -/
theorem c2_counterexample_duplicate_qualified_names :
    dupNameResult.functions.map (fun d => d.qualifiedName) = ["t.js::f", "t.js::f"] ∧
    dupNameResult.functions.getD 0 fallbackFunctionInfo ≠
      dupNameResult.functions.getD 1 fallbackFunctionInfo := by
  decide

/-! ### C9: run statistics -/

/-- The statistics fold, over an arbitrary accumulator. -/
theorem tallyStatistics_go (results : List FileResult) (init : RunStatistics) :
    results.foldl
      (fun acc result =>
        { acc with
          totalComponents := acc.totalComponents + result.components.length,
          totalFunctions := acc.totalFunctions + result.functions.length,
          totalImports := acc.totalImports + result.imports.length,
          totalExports := acc.totalExports + result.exports.length }) init =
      { totalComponents :=
          init.totalComponents + (results.map fun r => r.components.length).sum,
        totalFunctions :=
          init.totalFunctions + (results.map fun r => r.functions.length).sum,
        totalClasses := init.totalClasses, totalVariables := init.totalVariables,
        totalImports :=
          init.totalImports + (results.map fun r => r.imports.length).sum,
        totalExports :=
          init.totalExports + (results.map fun r => r.exports.length).sum } := by
  induction results generalizing init with
  | nil => simp
  | cons hd tl ih => simp [ih, Nat.add_assoc]

/-- The closed form of the statistics record. -/
theorem tallyStatistics_spec (results : List FileResult) :
    tallyStatistics results =
      { totalComponents := (results.map fun r => r.components.length).sum,
        totalFunctions := (results.map fun r => r.functions.length).sum,
        totalClasses := 0, totalVariables := 0,
        totalImports := (results.map fun r => r.imports.length).sum,
        totalExports := (results.map fun r => r.exports.length).sum } := by
  simpa using tallyStatistics_go results
    { totalComponents := 0, totalFunctions := 0, totalClasses := 0,
      totalVariables := 0, totalImports := 0, totalExports := 0 }

/-- C9 (amended): the run summary totals components, functions, imports
and exports over the successfully parsed files (as the lengths of the
respective result lists), while `totalClasses` and `totalVariables`
keep their initial `0` — they are never updated. -/
theorem c9_statistics_totals (fs : FS) (parse : String → Except String AST)
    (preserveComments : Bool) (projectPath : String)
    (files : List (String × String)) :
    (parseProjectFolder fs parse preserveComments projectPath files).1.statistics =
      { totalComponents :=
          ((parseProjectFolder fs parse preserveComments projectPath files).2.map
            fun r => r.components.length).sum,
        totalFunctions :=
          ((parseProjectFolder fs parse preserveComments projectPath files).2.map
            fun r => r.functions.length).sum,
        totalClasses := 0, totalVariables := 0,
        totalImports :=
          ((parseProjectFolder fs parse preserveComments projectPath files).2.map
            fun r => r.imports.length).sum,
        totalExports :=
          ((parseProjectFolder fs parse preserveComments projectPath files).2.map
            fun r => r.exports.length).sum } :=
  tallyStatistics_spec (runFiles fs parse preserveComments projectPath files).1

/-- Counterexample to C9 as stated: a run over one file holding one
class reports `totalClasses = 0` even though the parsed results contain
one class definition. -/
theorem c9_counterexample_classes_not_counted :
    classRun.1.statistics.totalClasses = 0 ∧
    ((classRun.2.map fun r =>
      (r.components.filter fun c => c.type = "class").length).sum) = 1 := by
  decide

/-! ### C8: failure isolation and the summary's failure report -/

/-- The run loop in closed form, over an arbitrary accumulator. -/
theorem runFiles_go (fs : FS) (parse : String → Except String AST)
    (preserveComments : Bool) (projectPath : String)
    (files : List (String × String)) (acc : List FileResult × Nat × Nat) :
    files.foldl
      (fun acc f =>
        let result := parseReactFile fs parse preserveComments
          (pathJoin projectPath f.1) f.2
        match result.error with
        | some _ => (acc.1, acc.2.1, acc.2.2 + 1)
        | none => (acc.1 ++ [result], acc.2.1 + 1, acc.2.2)) acc =
      (acc.1 ++ ((files.map fun f => parseReactFile fs parse preserveComments
          (pathJoin projectPath f.1) f.2).filter fun r => r.error.isNone),
       acc.2.1 + ((files.map fun f => parseReactFile fs parse preserveComments
          (pathJoin projectPath f.1) f.2).countP fun r => r.error.isNone),
       acc.2.2 + ((files.map fun f => parseReactFile fs parse preserveComments
          (pathJoin projectPath f.1) f.2).countP fun r => r.error.isSome)) := by
  induction files generalizing acc with
  | nil => simp
  | cons hd tl ih =>
    simp only [List.foldl_cons, List.map_cons, List.filter_cons, List.countP_cons]
    cases herr : (parseReactFile fs parse preserveComments
        (pathJoin projectPath hd.1) hd.2).error with
    | some msg =>
      simp only [herr, ih]
      simp [Nat.add_assoc, Nat.add_comm 1]
    | none =>
      simp only [herr, ih]
      simp [Nat.add_assoc, Nat.add_comm 1]

/-- C8 (amended): a parse failure never aborts the run — every file is
either counted as a success or as an error, the failed files are
excluded from the results and from the per-file breakdown, and the
summary records only the number of failures, not their identities. -/
theorem c8_failures_isolated_but_anonymous (fs : FS)
    (parse : String → Except String AST) (preserveComments : Bool)
    (projectPath : String) (files : List (String × String)) :
    (parseProjectFolder fs parse preserveComments projectPath files).1.totalFiles =
      files.length ∧
    (parseProjectFolder fs parse preserveComments projectPath files).1.successCount +
      (parseProjectFolder fs parse preserveComments projectPath files).1.errorCount =
      files.length ∧
    (parseProjectFolder fs parse preserveComments projectPath files).2 =
      ((files.map fun f => parseReactFile fs parse preserveComments
        (pathJoin projectPath f.1) f.2).filter fun r => r.error.isNone) ∧
    (parseProjectFolder fs parse preserveComments projectPath files).1.errorCount =
      ((files.map fun f => parseReactFile fs parse preserveComments
        (pathJoin projectPath f.1) f.2).countP fun r => r.error.isSome) ∧
    (parseProjectFolder fs parse preserveComments projectPath files).1.files =
      (((files.map fun f => parseReactFile fs parse preserveComments
        (pathJoin projectPath f.1) f.2).filter fun r => r.error.isNone).map
          mkSummaryFileEntry) := by
  have hrun := runFiles_go fs parse preserveComments projectPath files ([], 0, 0)
  have hr : runFiles fs parse preserveComments projectPath files =
      (((files.map fun f => parseReactFile fs parse preserveComments
          (pathJoin projectPath f.1) f.2).filter fun r => r.error.isNone),
       ((files.map fun f => parseReactFile fs parse preserveComments
          (pathJoin projectPath f.1) f.2).countP fun r => r.error.isNone),
       ((files.map fun f => parseReactFile fs parse preserveComments
          (pathJoin projectPath f.1) f.2).countP fun r => r.error.isSome)) := by
    simpa [runFiles] using hrun
  refine ⟨rfl, ?_, ?_, ?_, ?_⟩
  · show (runFiles fs parse preserveComments projectPath files).2.1 +
      (runFiles fs parse preserveComments projectPath files).2.2 = files.length
    rw [hr]
    have hsum : ∀ l : List FileResult,
        (l.countP fun r => r.error.isNone) + (l.countP fun r => r.error.isSome) =
          l.length := by
      intro l
      induction l with
      | nil => simp
      | cons h t ih =>
        cases he : h.error <;> simp [List.countP_cons, he] <;> omega
    calc ((files.map fun f => parseReactFile fs parse preserveComments
            (pathJoin projectPath f.1) f.2).countP fun r => r.error.isNone) +
          ((files.map fun f => parseReactFile fs parse preserveComments
            (pathJoin projectPath f.1) f.2).countP fun r => r.error.isSome) =
        (files.map fun f => parseReactFile fs parse preserveComments
            (pathJoin projectPath f.1) f.2).length := hsum _
      _ = files.length := by simp
  · show (runFiles fs parse preserveComments projectPath files).1 = _
    rw [hr]
  · show (runFiles fs parse preserveComments projectPath files).2.2 = _
    rw [hr]
  · show ((runFiles fs parse preserveComments projectPath files).1.map
      mkSummaryFileEntry) = _
    rw [hr]

/-- Counterexample to C8 as stated: two runs that fail on differently
named files with different diagnostics produce identical summary
records, so the emitted summary cannot show which files failed or why
(only the count survives). -/
theorem c8_counterexample_identical_summaries :
    failRunA.1 = failRunB.1 ∧ failRunA.1.errorCount = 1 := by
  decide

/-! ### C4: unresolved aliased imports are kept, with a coerced path -/

/-- C4 (amended): when an alias-prefixed import resolves to no existing
file under any probed extension, the resolver yields `null`, the
used-import record carries `resolvedPath = null`, and the forward
dependency edge is still emitted — but its `resolvedPath` field is the
JS string coercion `"null::" + local`, not `null`. -/
theorem c4_unresolved_alias_edge_still_emitted (fs : FS) (src cur pn : String)
    (hal : strStartsWith src "@/" = true)
    (hnx : extnameEmpty (candidateBase fs src cur) = true)
    (hpr : ∀ e ∈ extensions, fs.ex (candidateBase fs src cur ++ e) = false)
    (hnb : fs.ex (candidateBase fs src cur) = false)
    (d : DefnData) (imp : UsedImport) (hmem : imp ∈ d.usedImports)
    (hsrc : imp.source = src)
    (hrp : imp.resolvedPath = resolveImportPath fs src cur pn) :
    imp.resolvedPath = none ∧
    { type := "import", source := imp.source, imported := some imp.imported,
      localBinding := some imp.localBinding,
      resolvedPath := some ("null::" ++ imp.localBinding), component := none,
      line := imp.importLine } ∈ getForwardReferences d := by
  have hloc : isLocalImport src = true := by simp [isLocalImport, hal]
  have hfind : extensions.find? (fun ext => fs.ex (candidateBase fs src cur ++ ext)) =
      none := by
    rw [List.find?_eq_none]
    intro x hx
    simp [hpr x hx]
  have hres : resolveImportPath1 fs src cur = none := by
    simp [resolveImportPath1, hloc, hnx, hfind, hnb]
  have himp : imp.resolvedPath = none := by
    rw [hrp, resolveImportPath, hres]
    rfl
  refine ⟨himp, ?_⟩
  simp only [getForwardReferences]
  apply List.mem_append_left
  apply List.mem_map.mpr
  refine ⟨imp, List.mem_filter.mpr ⟨hmem, by rw [hsrc]; exact hloc⟩, ?_⟩
  simp [himp, jsStringOfNullable]

/-- Witness for C4's amended theorem at the concrete missing aliased
module. -/
theorem c4_unresolved_alias_edge_still_emitted_witness :
    missingImp.resolvedPath = none ∧
    { type := "import", source := missingImp.source,
      imported := some missingImp.imported,
      localBinding := some missingImp.localBinding,
      resolvedPath := some ("null::" ++ missingImp.localBinding),
      component := none,
      line := missingImp.importLine } ∈ getForwardReferences unresolvedImportDefn :=
  c4_unresolved_alias_edge_still_emitted fsEmpty "@/components/Missing"
    "/proj/src/pages/Home.js" "ant-design-pro" (by decide) (by decide)
    (by decide) (by decide) unresolvedImportDefn missingImp (by decide)
    (by decide) (by decide)

/-- Counterexample to C4 as stated: the resolver does yield `null` for
the missing aliased module, and the edge is emitted — but the single
emitted forward reference carries `resolvedPath = "null::Missing"`
(the JS coercion of `null + '::' + local`), not `null`. -/
theorem c4_counterexample_coerced_null_path :
    resolveImportPath fsEmpty "@/components/Missing" "/proj/src/pages/Home.js"
      "ant-design-pro" = none ∧
    getForwardReferences unresolvedImportDefn =
      [{ type := "import", source := "@/components/Missing",
         imported := some "default", localBinding := some "Missing",
         resolvedPath := some "null::Missing", component := none, line := 1 }] := by
  decide

/-! ### C5: deterministic extension probing order -/

/-- C5: over an extensionless candidate base, `resolveImportPath1`
probes `.ts`, `.tsx`, `.js`, `.jsx` in that fixed order and returns the
first hit (so a typed variant always beats a plain one), and the
directory `index` fallback is consulted only after all four direct
probes fail. -/
theorem c5_extension_probe_order (fs : FS) (src cur : String)
    (hl : isLocalImport src = true)
    (hnx : extnameEmpty (candidateBase fs src cur) = true) :
    (fs.ex (candidateBase fs src cur ++ ".ts") = true →
      resolveImportPath1 fs src cur = some (candidateBase fs src cur ++ ".ts")) ∧
    (fs.ex (candidateBase fs src cur ++ ".ts") = false →
      fs.ex (candidateBase fs src cur ++ ".tsx") = true →
      resolveImportPath1 fs src cur = some (candidateBase fs src cur ++ ".tsx")) ∧
    (fs.ex (candidateBase fs src cur ++ ".ts") = false →
      fs.ex (candidateBase fs src cur ++ ".tsx") = false →
      fs.ex (candidateBase fs src cur ++ ".js") = true →
      resolveImportPath1 fs src cur = some (candidateBase fs src cur ++ ".js")) ∧
    (fs.ex (candidateBase fs src cur ++ ".ts") = false →
      fs.ex (candidateBase fs src cur ++ ".tsx") = false →
      fs.ex (candidateBase fs src cur ++ ".js") = false →
      fs.ex (candidateBase fs src cur ++ ".jsx") = true →
      resolveImportPath1 fs src cur = some (candidateBase fs src cur ++ ".jsx")) ∧
    ((∀ e ∈ extensions, fs.ex (candidateBase fs src cur ++ e) = false) →
      fs.ex (candidateBase fs src cur) = true →
      fs.isDir (candidateBase fs src cur) = true →
      fs.ex (candidateBase fs src cur ++ "/index" ++ ".ts") = true →
      resolveImportPath1 fs src cur =
        some (candidateBase fs src cur ++ "/index" ++ ".ts")) ∧
    ((∀ e ∈ extensions, fs.ex (candidateBase fs src cur ++ e) = false) →
      (fs.ex (candidateBase fs src cur) && fs.isDir (candidateBase fs src cur)) = false →
      resolveImportPath1 fs src cur = none) := by
  refine ⟨?_, ?_, ?_, ?_, ?_, ?_⟩
  · intro h1
    simp [resolveImportPath1, hl, hnx, extensions, List.find?, h1]
  · intro h1 h2
    simp [resolveImportPath1, hl, hnx, extensions, List.find?, h1, h2]
  · intro h1 h2 h3
    simp [resolveImportPath1, hl, hnx, extensions, List.find?, h1, h2, h3]
  · intro h1 h2 h3 h4
    simp [resolveImportPath1, hl, hnx, extensions, List.find?, h1, h2, h3, h4]
  · intro hall hex hdir hidx
    have h1 := hall ".ts" (by simp [extensions])
    have h2 := hall ".tsx" (by simp [extensions])
    have h3 := hall ".js" (by simp [extensions])
    have h4 := hall ".jsx" (by simp [extensions])
    simp [resolveImportPath1, hl, hnx, extensions, List.find?, h1, h2, h3, h4,
      hex, hdir, hidx]
  · intro hall hnd
    have h1 := hall ".ts" (by simp [extensions])
    have h2 := hall ".tsx" (by simp [extensions])
    have h3 := hall ".js" (by simp [extensions])
    have h4 := hall ".jsx" (by simp [extensions])
    simp [resolveImportPath1, hl, hnx, extensions, List.find?, h1, h2, h3, h4, hnd]

/-- Witness for C5 at a base that exists under both `.ts` and `.js`:
the typed variant wins. -/
theorem c5_extension_probe_order_witness :
    resolveImportPath1 fsBoth "./m" "/p/a.js" =
      some (candidateBase fsBoth "./m" "/p/a.js" ++ ".ts") ∧
    fsBoth.ex (candidateBase fsBoth "./m" "/p/a.js" ++ ".js") = true :=
  ⟨(c5_extension_probe_order fsBoth "./m" "/p/a.js" (by decide) (by decide)).1
    (by decide), by decide⟩

/-! ### C7: component classification -/

/-- Correctness of `containsList`: it decides list-infix containment. -/
theorem containsList_iff (pat l : List Char) :
    containsList pat l = true ↔ pat <:+: l := by
  induction l with
  | nil =>
    simp [containsList, List.isEmpty_iff, List.infix_nil]
  | cons a l ih =>
    simp [containsList, List.infix_cons_iff, List.isPrefixOf_iff_prefix, ih]

theorem strInfix_append_right (pat : List Char) (a b : String)
    (h : pat <:+: b.toList) : pat <:+: (a ++ b).toList := by
  rcases h with ⟨s, t, hst⟩
  refine ⟨a.toList ++ s, t, ?_⟩
  have : (a ++ b).toList = a.toList ++ b.toList := rfl
  rw [this, ← hst]
  simp

theorem strInfix_append_left (pat : List Char) (a b : String)
    (h : pat <:+: a.toList) : pat <:+: (a ++ b).toList := by
  rcases h with ⟨s, t, hst⟩
  refine ⟨s, t ++ b.toList, ?_⟩
  have : (a ++ b).toList = a.toList ++ b.toList := rfl
  rw [this, ← hst]
  simp

mutual

/-- A markup construct anywhere in a node plants its marker verbatim in
the node's serialization. -/
theorem serializeNode_jsx (n : BNode) (h : containsJSXNode n = true) :
    "JSXElement".toList <:+: (serializeNode n).toList ∨
      "JSXFragment".toList <:+: (serializeNode n).toList := by
  cases n with
  | importDecl source line specs => simp [containsJSXNode] at h
  | exportNamed name line decl =>
    have hd := serializeList_jsx decl (by simpa [containsJSXNode] using h)
    rcases hd with hd | hd
    · exact Or.inl (by
        simp only [serializeNode]
        exact strInfix_append_left _ _ _ (strInfix_append_right _ _ _ hd))
    · exact Or.inr (by
        simp only [serializeNode]
        exact strInfix_append_left _ _ _ (strInfix_append_right _ _ _ hd))
  | exportDefault name line decl =>
    have hd := serializeList_jsx decl (by simpa [containsJSXNode] using h)
    rcases hd with hd | hd
    · exact Or.inl (by
        simp only [serializeNode]
        exact strInfix_append_left _ _ _ (strInfix_append_right _ _ _ hd))
    · exact Or.inr (by
        simp only [serializeNode]
        exact strInfix_append_left _ _ _ (strInfix_append_right _ _ _ hd))
  | funcDecl id sl el ia ps body =>
    have hd := serializeList_jsx body (by simpa [containsJSXNode] using h)
    rcases hd with hd | hd
    · exact Or.inl (by
        simp only [serializeNode]
        exact strInfix_append_left _ _ _ (strInfix_append_right _ _ _ hd))
    · exact Or.inr (by
        simp only [serializeNode]
        exact strInfix_append_left _ _ _ (strInfix_append_right _ _ _ hd))
  | arrowFn binding sl el ia ps body =>
    have hd := serializeList_jsx body (by simpa [containsJSXNode] using h)
    rcases hd with hd | hd
    · exact Or.inl (by
        simp only [serializeNode]
        exact strInfix_append_left _ _ _ (strInfix_append_right _ _ _ hd))
    · exact Or.inr (by
        simp only [serializeNode]
        exact strInfix_append_left _ _ _ (strInfix_append_right _ _ _ hd))
  | classDecl id sc sl el mem body =>
    have hd := serializeList_jsx body (by simpa [containsJSXNode] using h)
    rcases hd with hd | hd
    · exact Or.inl (by
        simp only [serializeNode]
        exact strInfix_append_left _ _ _ (strInfix_append_right _ _ _ hd))
    · exact Or.inr (by
        simp only [serializeNode]
        exact strInfix_append_left _ _ _ (strInfix_append_right _ _ _ hd))
  | identRef name => simp [containsJSXNode] at h
  | jsxElem tag ch =>
    exact Or.inl ⟨[], ('(' :: (tag ++ "," ++ serializeList ch ++ ")").toList), rfl⟩
  | jsxFrag ch =>
    exact Or.inr ⟨[], ('(' :: (serializeList ch ++ ")").toList), rfl⟩
  | jsxTextNode text => simp [containsJSXNode] at h
  | strLit text => simp [containsJSXNode] at h
  | group ch =>
    have hd := serializeList_jsx ch (by simpa [containsJSXNode] using h)
    rcases hd with hd | hd
    · exact Or.inl (by
        simp only [serializeNode]
        exact strInfix_append_left _ _ _ (strInfix_append_right _ _ _ hd))
    · exact Or.inr (by
        simp only [serializeNode]
        exact strInfix_append_left _ _ _ (strInfix_append_right _ _ _ hd))

/-- List version of `serializeNode_jsx`. -/
theorem serializeList_jsx (l : BNodeList) (h : containsJSXList l = true) :
    "JSXElement".toList <:+: (serializeList l).toList ∨
      "JSXFragment".toList <:+: (serializeList l).toList := by
  cases l with
  | nil => simp [containsJSXList] at h
  | cons hd tl =>
    simp only [containsJSXList, Bool.or_eq_true] at h
    rcases h with h | h
    · have hh := serializeNode_jsx hd h
      rcases hh with hh | hh
      · exact Or.inl (by
          simp only [serializeList]
          exact strInfix_append_left _ _ _ (strInfix_append_left _ _ _ hh))
      · exact Or.inr (by
          simp only [serializeList]
          exact strInfix_append_left _ _ _ (strInfix_append_left _ _ _ hh))
    · have hh := serializeList_jsx tl h
      rcases hh with hh | hh
      · exact Or.inl (by
          simp only [serializeList]
          exact strInfix_append_right _ _ _ hh)
      · exact Or.inr (by
          simp only [serializeList]
          exact strInfix_append_right _ _ _ hh)

end

/-- C7 (amended): an extracted function passing the JS case test
(`name[0] === name[0].toUpperCase()`) is classified a component exactly
when `returnsJSX` finds one of the serialized markers — genuine markup
anywhere in the node suffices, but so does marker text in a string
literal — while any function failing the case test stays a plain
function; an extracted class is classified a component exactly when its
superclass is `Component`/`PureComponent` (bare or under `React.`),
independently of any markup in its body. -/
theorem c7_component_classification (name : String) (node : BNode) :
    (jsFirstCharCaseCheck name = true →
      v1ClassifyComponent name node = returnsJSX node) ∧
    (jsFirstCharCaseCheck name = false →
      v1ClassifyComponent name node = false) ∧
    (containsJSXNode node = true → returnsJSX node = true) ∧
    (∀ (id : String) (sc : Option SuperRef) (sl el : Nat) (mem : List Member)
        (body : BNodeList) (r : FileResult) (sp : Option String)
        (content : String) (lines : List String),
      ∀ ci ∈ (extractClass (.classDecl id sc sl el mem body) r sp content lines).components,
        ci ∈ r.components ∨ ci.isComponent = isReactComponent sc) := by
  refine ⟨?_, ?_, ?_, ?_⟩
  · intro h
    simp [v1ClassifyComponent, h]
  · intro h
    simp [v1ClassifyComponent, h]
  · intro h
    have hm := serializeNode_jsx node h
    rcases hm with hm | hm
    · have hc : containsList "JSXElement".toList (serializeNode node).toList = true :=
        (containsList_iff _ _).mpr hm
      simp only [returnsJSX, strContains, Bool.or_eq_true]
      exact Or.inl (Or.inl hc)
    · have hc : containsList "JSXFragment".toList (serializeNode node).toList = true :=
        (containsList_iff _ _).mpr hm
      simp only [returnsJSX, strContains, Bool.or_eq_true]
      exact Or.inl (Or.inr hc)
  · intro id sc sl el mem body r sp content lines ci hci
    simp only [extractClass, List.mem_append, List.mem_singleton] at hci
    rcases hci with hci | hci
    · exact Or.inl hci
    · subst hci
      exact Or.inr rfl

/-- Witness for C7's amended theorem at concrete nodes. -/
theorem c7_component_classification_witness :
    v1ClassifyComponent "Foo" markerStringFn = returnsJSX markerStringFn ∧
    returnsJSX (.jsxElem "div" .nil) = true ∧
    ((extractClass plainComponentClass emptyFileResult none "" []).components.getD 0
        fallbackClassInfo ∈ emptyFileResult.components ∨
      ((extractClass plainComponentClass emptyFileResult none "" []).components.getD 0
        fallbackClassInfo).isComponent = isReactComponent (some (.sid "Component"))) :=
  ⟨(c7_component_classification "Foo" markerStringFn).1 (by decide),
   (c7_component_classification "x" (.jsxElem "div" .nil)).2.2.1 (by decide),
   (c7_component_classification "x" (.jsxElem "div" .nil)).2.2.2 "Foo"
     (some (.sid "Component")) 1 2 [] .nil emptyFileResult none "" [] _ (by decide)⟩

/-- Counterexample to C7 as stated: a markup-free class extending
`Component` is classified a component, and an uppercase-named function
whose body only holds the string literal `"JSXText"` is classified a
component — in both cases no markup-element or markup-fragment
construct occurs in the body, refuting the claimed "if and only if". -/
theorem c7_counterexample_classification_mismatch :
    ((extractClass plainComponentClass emptyFileResult none "" []).components.map
      fun c => c.isComponent) = [true] ∧
    containsJSXNode plainComponentClass = false ∧
    v1ClassifyComponent "Foo" markerStringFn = true ∧
    containsJSXNode markerStringFn = false := by
  decide

/-! ### C6: used-import analysis -/

/-- Inserting a fresh key appends it. -/
theorem mapSet_keys_new (m : List (String × ImportMapEntry)) (k : String)
    (v : ImportMapEntry) (hnew : m.any (fun p => p.1 = k) = false) :
    (mapSet m k v).map Prod.fst = m.map Prod.fst ++ [k] := by
  simp [mapSet, hnew]

/-- Appending a pair whose key is absent from a map, looked up
afterwards. -/
theorem lookup_append_single (m : List (String × ImportMapEntry)) (k : String)
    (v : ImportMapEntry) (hnone : lookupMap m k = none) (k' : String) :
    lookupMap (m ++ [(k, v)]) k' = if k' = k then some v else lookupMap m k' := by
  induction m with
  | nil =>
    by_cases hk : k' = k
    · subst hk
      simp [lookupMap, List.find?]
    · have : decide (k = k') = false := by
        simp only [decide_eq_false_iff_not]
        exact fun h => hk h.symm
      simp [lookupMap, List.find?, hk, this]
  | cons hd tl ih =>
    have hhd : (hd.1 ≠ k) ∧ lookupMap tl k = none := by
      by_cases hq : hd.1 = k
      · exfalso
        simp only [lookupMap] at hnone
        rw [List.find?_cons_of_pos _ (by simpa using hq)] at hnone
        simp at hnone
      · refine ⟨hq, ?_⟩
        simp only [lookupMap] at hnone ⊢
        rwa [List.find?_cons_of_neg _ (by simpa using hq)] at hnone
    by_cases hdk : hd.1 = k'
    · have hk : ¬(k' = k) := by
        intro hkk
        exact hhd.1 (hdk.trans hkk)
      simp only [List.cons_append, lookupMap, if_neg hk]
      rw [List.find?_cons_of_pos _ (by simpa using hdk),
        List.find?_cons_of_pos _ (by simpa using hdk)]
    · have hrec := ih hhd.2
      have hfc1 : List.find? (fun p => decide (p.1 = k')) (hd :: (tl ++ [(k, v)])) =
          List.find? (fun p => decide (p.1 = k')) (tl ++ [(k, v)]) :=
        List.find?_cons_of_neg _ (by simpa using hdk)
      have hfc2 : List.find? (fun p => decide (p.1 = k')) (hd :: tl) =
          List.find? (fun p => decide (p.1 = k')) tl :=
        List.find?_cons_of_neg _ (by simpa using hdk)
      simp only [List.cons_append, lookupMap] at hrec ⊢
      rw [hfc1, hfc2, hrec]

/-- Looking up after inserting a fresh key. -/
theorem lookup_mapSet_new (m : List (String × ImportMapEntry)) (k : String)
    (v : ImportMapEntry) (hnew : m.any (fun p => p.1 = k) = false) (k' : String) :
    lookupMap (mapSet m k v) k' = if k' = k then some v else lookupMap m k' := by
  have hm : mapSet m k v = m ++ [(k, v)] := by simp [mapSet, hnew]
  have hnone : lookupMap m k = none := by
    simp only [lookupMap, Option.map_eq_none']
    rw [List.find?_eq_none]
    intro p hp
    simp only [decide_eq_true_eq]
    intro hpk
    have : m.any (fun p => p.1 = k) = true :=
      List.any_eq_true.mpr ⟨p, hp, by simpa using hpk⟩
    exact absurd this (by simp [hnew])
  rw [hm]
  exact lookup_append_single m k v hnone k'

/-- Folding fresh-keyed pairs into the map, looked up afterwards: the
initial map wins, otherwise the first pair with the key. -/
theorem foldPairs_lookup (pairs : List (String × ImportMapEntry)) :
    ∀ m : List (String × ImportMapEntry),
      (m.map Prod.fst ++ pairs.map Prod.fst).Nodup → ∀ k,
      lookupMap (pairs.foldl (fun m2 p => mapSet m2 p.1 p.2) m) k =
        ((lookupMap m k).orElse
          (fun _ => (pairs.find? (fun p => p.1 = k)).map Prod.snd)) := by
  induction pairs with
  | nil =>
    intro m _ k
    cases h : lookupMap m k <;> simp [List.find?, Option.orElse, h]
  | cons hd tl ih =>
    intro m h k
    simp only [List.map_cons] at h
    have hsplit := List.nodup_append.mp h
    have hdisj : hd.1 ∉ m.map Prod.fst := by
      intro hmem
      exact (hsplit.2.2 hmem) (List.mem_cons_self _ _)
    have han : m.any (fun p => p.1 = hd.1) = false := by
      cases hA : m.any (fun p => p.1 = hd.1) with
      | false => rfl
      | true =>
        obtain ⟨p, hp, hpk⟩ := List.any_eq_true.mp hA
        exact absurd (List.mem_map.mpr ⟨p, hp, by simpa using hpk⟩) hdisj
    have hnodup' : ((mapSet m hd.1 hd.2).map Prod.fst ++ tl.map Prod.fst).Nodup := by
      rw [mapSet_keys_new m hd.1 hd.2 han, List.append_assoc, List.singleton_append]
      exact h
    have hrec := ih (mapSet m hd.1 hd.2) hnodup' k
    simp only [List.foldl_cons]
    rw [hrec, lookup_mapSet_new m hd.1 hd.2 han k]
    by_cases hk : k = hd.1
    · have hnone : lookupMap m k = none := by
        simp only [lookupMap, Option.map_eq_none']
        rw [List.find?_eq_none]
        intro p hp
        simp only [decide_eq_true_eq]
        intro hpk
        exact hdisj (List.mem_map.mpr ⟨p, hp, hpk.trans hk⟩)
      rw [if_pos hk, hnone]
      have hfc : List.find? (fun p => decide (p.1 = k)) (hd :: tl) = some hd :=
        List.find?_cons_of_pos _ (by simpa using hk.symm)
      simp [Option.orElse, hfc]
    · rw [if_neg hk]
      have hfc : List.find? (fun p => decide (p.1 = k)) (hd :: tl) =
          List.find? (fun p => decide (p.1 = k)) tl :=
        List.find?_cons_of_neg _ (by
          simp only [decide_eq_true_eq]
          exact fun h => hk h.symm)
      rw [hfc]

/-- The keys of the specifier pairs are exactly the local bindings. -/
theorem specPairs_keys (imports : List ImportInfo) :
    (specPairs imports).map Prod.fst = allLocals imports := by
  induction imports with
  | nil => simp [specPairs, allLocals]
  | cons hd tl ih =>
    simp only [specPairs, allLocals, List.flatMap_cons, List.map_append] at ih ⊢
    rw [ih]
    simp [List.map_map]

/-- Equationally, `buildImportMap` is the fold of the flattened specifier pairs. -/
theorem buildImportMap_eq (imports : List ImportInfo) :
    buildImportMap imports =
      (specPairs imports).foldl (fun m p => mapSet m p.1 p.2) [] := by
  suffices h : ∀ m0 : List (String × ImportMapEntry),
      imports.foldl
        (fun m importInfo =>
          importInfo.specifiers.foldl
            (fun m2 spec => mapSet m2 spec.localBinding (mkMapEntry importInfo spec))
            m) m0 =
      (specPairs imports).foldl (fun m p => mapSet m p.1 p.2) m0 from h []
  induction imports with
  | nil => intro m0; simp [specPairs]
  | cons hd tl ih =>
    intro m0
    simp only [List.foldl_cons, specPairs, List.flatMap_cons, List.foldl_append,
      List.foldl_map]
    exact ih _

/-- Looking up a binding in the import map, given that bindings are
unique (which Babel guarantees for any file it accepts). -/
theorem lookup_buildImportMap (imports : List ImportInfo)
    (hnd : (allLocals imports).Nodup) (k : String) :
    lookupMap (buildImportMap imports) k =
      ((specPairs imports).find? (fun p => p.1 = k)).map Prod.snd := by
  rw [buildImportMap_eq]
  have h := foldPairs_lookup (specPairs imports) []
    (by simpa [specPairs_keys] using hnd) k
  simpa [lookupMap, List.find?, Option.orElse] using h

/-- Searching a list with unique keys returns exactly the member
with the key. -/
theorem find?_unique_key (pairs : List (String × ImportMapEntry))
    (hnd : (pairs.map Prod.fst).Nodup) (x : String) (p : String × ImportMapEntry) :
    pairs.find? (fun q => q.1 = x) = some p ↔ p ∈ pairs ∧ p.1 = x := by
  constructor
  · intro h
    exact ⟨List.mem_of_find?_eq_some h, by simpa using List.find?_some h⟩
  · rintro ⟨hp, hpx⟩
    have hex : ∃ q ∈ pairs, (fun q : String × ImportMapEntry => decide (q.1 = x)) q := by
      exact ⟨p, hp, by simpa using hpx⟩
    have hsome : (pairs.find? (fun q => q.1 = x)).isSome := by
      rw [List.find?_isSome]
      exact hex
    obtain ⟨q, hq⟩ := Option.isSome_iff_exists.mp hsome
    have hq1 : q ∈ pairs := List.mem_of_find?_eq_some hq
    have hq2 : q.1 = x := by simpa using List.find?_some hq
    have : q = p := List.inj_on_of_nodup_map hnd hq1 hp (hq2.trans hpx.symm)
    rw [hq, this]

/-- Membership in the flattened specifier pairs. -/
theorem mem_specPairs (imports : List ImportInfo) (pair : String × ImportMapEntry) :
    pair ∈ specPairs imports ↔
      ∃ ii ∈ imports, ∃ sp ∈ ii.specifiers,
        pair = (sp.localBinding, mkMapEntry ii sp) := by
  simp only [specPairs, List.mem_flatMap, List.mem_map]
  constructor
  · rintro ⟨ii, hii, sp, hsp, hpair⟩
    exact ⟨ii, hii, sp, hsp, hpair.symm⟩
  · rintro ⟨ii, hii, sp, hsp, hpair⟩
    exact ⟨ii, hii, sp, hsp, hpair.symm⟩

/-- Membership is preserved by `dedupFirst`. -/
theorem mem_dedupFirst (l : List String) (x : String) :
    x ∈ dedupFirst l ↔ x ∈ l := by
  suffices h : ∀ acc : List String,
      x ∈ l.foldl (fun acc y => if acc.contains y then acc else acc ++ [y]) acc ↔
        x ∈ acc ∨ x ∈ l by
    simpa [dedupFirst] using h []
  induction l with
  | nil => intro acc; simp
  | cons hd tl ih =>
    intro acc
    by_cases hc : acc.contains hd
    · simp only [List.foldl_cons, if_pos hc]
      rw [ih acc]
      have hmem : hd ∈ acc := by simpa using hc
      constructor
      · rintro (h | h)
        · exact Or.inl h
        · exact Or.inr (List.mem_cons_of_mem _ h)
      · rintro (h | h)
        · exact Or.inl h
        · rcases List.mem_cons.mp h with h | h
          · exact Or.inl (h ▸ hmem)
          · exact Or.inr h
    · simp only [List.foldl_cons, if_neg hc]
      rw [ih (acc ++ [hd])]
      simp only [List.mem_append, List.mem_singleton, List.mem_cons]
      tauto

/-- One pass of the used-import fold: an entry for a pair exists
afterwards iff it existed before or some identifier of the pass hits
the pair. -/
theorem usedStep_fold_hasPair (im : List (String × ImportMapEntry)) (s i : String)
    (ids : List String) :
    ∀ acc : List UsedImport,
      hasPairB (ids.foldl (usedStep im) acc) s i =
        (hasPairB acc s i || ids.any (lookupHit im s i)) := by
  induction ids with
  | nil => intro acc; simp
  | cons x ids ih =>
    intro acc
    simp only [List.foldl_cons, List.any_cons]
    cases hx : lookupMap im x with
    | none =>
      have hstep : usedStep im acc x = acc := by simp [usedStep, hx]
      rw [hstep, ih acc]
      simp [lookupHit, hx]
    | some info =>
      have hhit : lookupHit im s i x = (decide (info.source = s) &&
          decide (info.imported = i)) := by
        simp [lookupHit, hx]
      cases hskip : (acc.any fun u => u.source = info.source &&
          u.imported = info.imported) with
      | true =>
        have hstep : usedStep im acc x = acc := by simp [usedStep, hx, hskip]
        rw [hstep, ih acc, hhit]
        by_cases hs : info.source = s
        · by_cases hi : info.imported = i
          · subst hs
            subst hi
            have : hasPairB acc info.source info.imported = true := hskip
            simp [this]
          · simp [hi]
        · simp [hs]
      | false =>
        have hstep : usedStep im acc x = acc ++
            [{ source := info.source, imported := info.imported,
               localBinding := x, type := info.type,
               resolvedPath := info.resolvedPath, importLine := info.line }] := by
          simp [usedStep, hx, hskip]
        rw [hstep, ih _, hhit]
        simp only [hasPairB, List.any_append, List.any_cons, List.any_nil,
          Bool.or_false]
        simp [Bool.or_assoc]

/-- One pass of the used-import fold keeps the entry count of every
pair equal to its presence indicator. -/
theorem usedStep_fold_countP (im : List (String × ImportMapEntry)) (s i : String)
    (ids : List String) :
    ∀ acc : List UsedImport,
      acc.countP (fun u => u.source = s && u.imported = i) =
        (if hasPairB acc s i then 1 else 0) →
      (ids.foldl (usedStep im) acc).countP (fun u => u.source = s && u.imported = i) =
        if hasPairB (ids.foldl (usedStep im) acc) s i then 1 else 0 := by
  induction ids with
  | nil => intro acc hinv; simpa using hinv
  | cons x ids ih =>
    intro acc hinv
    simp only [List.foldl_cons]
    apply ih
    cases hx : lookupMap im x with
    | none =>
      have hstep : usedStep im acc x = acc := by simp [usedStep, hx]
      rw [hstep]
      exact hinv
    | some info =>
      cases hskip : (acc.any fun u => u.source = info.source &&
          u.imported = info.imported) with
      | true =>
        have hstep : usedStep im acc x = acc := by simp [usedStep, hx, hskip]
        rw [hstep]
        exact hinv
      | false =>
        have hstep : usedStep im acc x = acc ++
            [{ source := info.source, imported := info.imported,
               localBinding := x, type := info.type,
               resolvedPath := info.resolvedPath, importLine := info.line }] := by
          simp [usedStep, hx, hskip]
        rw [hstep]
        by_cases hs : info.source = s
        · by_cases hi : info.imported = i
          · subst hs
            subst hi
            have hfalse : hasPairB acc info.source info.imported = false := hskip
            rw [List.countP_append, hinv, hfalse]
            simp [hasPairB, List.any_append, hfalse, List.countP_cons]
          · rw [List.countP_append, hinv]
            simp [hasPairB, List.any_append, hi, List.countP_cons]
        · rw [List.countP_append, hinv]
          simp [hasPairB, List.any_append, hs, List.countP_cons]

/-- The identifier pass finds a pair iff some specifier of that pair
has its local binding among the identifiers. -/
theorem any_lookupHit_eq_pairReferenced (imports : List ImportInfo)
    (hnd : (allLocals imports).Nodup) (ids : List String) (s i : String) :
    ids.any (lookupHit (buildImportMap imports) s i) =
      pairReferenced imports ids s i := by
  have hiff : ids.any (lookupHit (buildImportMap imports) s i) = true ↔
      pairReferenced imports ids s i = true := by
    rw [List.any_eq_true]
    unfold pairReferenced
    rw [List.any_eq_true]
    constructor
    · rintro ⟨x, hxid, hhit⟩
      rw [show lookupHit (buildImportMap imports) s i x =
          (match lookupMap (buildImportMap imports) x with
            | some info => decide (info.source = s) && decide (info.imported = i)
            | none => false) from rfl] at hhit
      cases hlk : lookupMap (buildImportMap imports) x with
      | none => rw [hlk] at hhit; simp at hhit
      | some info =>
        rw [hlk] at hhit
        rw [lookup_buildImportMap imports hnd x] at hlk
        obtain ⟨pair, hfind, hsnd⟩ := Option.map_eq_some'.mp hlk
        obtain ⟨hpmem, hpkey⟩ :=
          (find?_unique_key (specPairs imports)
            (by rw [specPairs_keys]; exact hnd) x pair).mp hfind
        obtain ⟨ii, hii, sp, hsp, hpair⟩ := (mem_specPairs imports pair).mp hpmem
        simp only [Bool.and_eq_true, decide_eq_true_eq] at hhit
        refine ⟨ii, hii, ?_⟩
        have hinfo : info = mkMapEntry ii sp := by rw [← hsnd, hpair]
        have hsrc : ii.source = s := by
          have := hhit.1
          rw [hinfo] at this
          exact this
        have himp : sp.imported = i := by
          have := hhit.2
          rw [hinfo] at this
          exact this
        simp only [Bool.and_eq_true, decide_eq_true_eq]
        refine ⟨hsrc, List.any_eq_true.mpr ⟨sp, hsp, ?_⟩⟩
        simp only [Bool.and_eq_true, decide_eq_true_eq]
        refine ⟨himp, ?_⟩
        have hloc : sp.localBinding = x := by
          have := hpkey
          rw [hpair] at this
          exact this
        rw [hloc]
        exact List.elem_iff.mpr hxid
    · rintro ⟨ii, hii, hcond⟩
      simp only [Bool.and_eq_true, decide_eq_true_eq] at hcond
      obtain ⟨hsrc, hspec⟩ := hcond
      obtain ⟨sp, hsp, hspcond⟩ := List.any_eq_true.mp hspec
      simp only [Bool.and_eq_true, decide_eq_true_eq] at hspcond
      obtain ⟨himp, hcont⟩ := hspcond
      have hxid : sp.localBinding ∈ ids := List.elem_iff.mp hcont
      refine ⟨sp.localBinding, hxid, ?_⟩
      have hpmem : (sp.localBinding, mkMapEntry ii sp) ∈ specPairs imports :=
        (mem_specPairs imports _).mpr ⟨ii, hii, sp, hsp, rfl⟩
      have hfind : (specPairs imports).find? (fun q => q.1 = sp.localBinding) =
          some (sp.localBinding, mkMapEntry ii sp) :=
        (find?_unique_key (specPairs imports)
          (by rw [specPairs_keys]; exact hnd) sp.localBinding _).mpr ⟨hpmem, rfl⟩
      have hlk : lookupMap (buildImportMap imports) sp.localBinding =
          some (mkMapEntry ii sp) := by
        rw [lookup_buildImportMap imports hnd, hfind]
        rfl
      simp [lookupHit, hlk, mkMapEntry, hsrc, himp]
  cases hL : ids.any (lookupHit (buildImportMap imports) s i) with
  | true => exact (hiff.mp hL).symm
  | false =>
    cases hR : pairReferenced imports ids s i with
    | true => exact absurd (hiff.mpr hR) (by simp [hL])
    | false => rfl

/-- Pointwise-equal predicates give equal `any`. -/
theorem any_congr' {α : Type} (l : List α) (p q : α → Bool)
    (h : ∀ x ∈ l, p x = q x) : l.any p = l.any q := by
  induction l with
  | nil => rfl
  | cons hd tl ih =>
    simp only [List.any_cons, h hd (List.mem_cons_self _ _)]
    rw [ih (fun x hx => h x (List.mem_cons_of_mem _ hx))]

/-- Containment is preserved by `dedupFirst`. -/
theorem contains_dedupFirst (l : List String) (x : String) :
    (dedupFirst l).contains x = l.contains x := by
  cases hc : l.contains x with
  | true =>
    have hmem : x ∈ dedupFirst l :=
      (mem_dedupFirst l x).mpr (List.elem_iff.mp hc)
    exact List.elem_iff.mpr hmem
  | false =>
    cases hd : (dedupFirst l).contains x with
    | true =>
      have hmem : x ∈ l := (mem_dedupFirst l x).mp (List.elem_iff.mp hd)
      have hnot : ¬(x ∈ l) := by simpa using hc
      exact absurd hmem hnot
    | false => rfl

/-- The reference condition is insensitive to identifier
de-duplication. -/
theorem pairReferenced_dedup (imports : List ImportInfo) (ids : List String)
    (s i : String) :
    pairReferenced imports (dedupFirst ids) s i = pairReferenced imports ids s i := by
  unfold pairReferenced
  apply any_congr'
  intro ii _
  congr 1
  apply any_congr'
  intro sp _
  rw [contains_dedupFirst]

/-- C6: with the import bindings distinct (as Babel guarantees), the
used-import list holds exactly one entry for every `(source, imported)`
pair whose local binding occurs among the identifiers collected from
the definition's body — double references still give one entry, and an
unreferenced import gives none. -/
theorem c6_used_imports_exactly_once (node : BNode) (imports : List ImportInfo)
    (hnd : (allLocals imports).Nodup) (s i : String) :
    (analyzeUsedImports node imports).countP
        (fun u => u.source = s && u.imported = i) =
      if pairReferenced imports (collectIdentifiersList node.bodyOf) s i then 1
      else 0 := by
  have hcount := usedStep_fold_countP (buildImportMap imports) s i
    (dedupFirst (collectIdentifiersList node.bodyOf)) [] (by simp [hasPairB])
  have hana : analyzeUsedImports node imports =
      (dedupFirst (collectIdentifiersList node.bodyOf)).foldl
        (usedStep (buildImportMap imports)) [] := rfl
  rw [hana, hcount]
  have hb : hasPairB ((dedupFirst (collectIdentifiersList node.bodyOf)).foldl
      (usedStep (buildImportMap imports)) []) s i =
      pairReferenced imports (collectIdentifiersList node.bodyOf) s i := by
    rw [usedStep_fold_hasPair]
    rw [show hasPairB [] s i = false from by simp [hasPairB], Bool.false_or]
    rw [any_lookupHit_eq_pairReferenced imports hnd]
    exact pairReferenced_dedup imports (collectIdentifiersList node.bodyOf) s i
  rw [hb]

/-- Witness for C6 at a concrete body using `Button` twice (as a markup
tag), `helper` once, and `unusedUtil` never. -/
theorem c6_used_imports_exactly_once_witness :
    (analyzeUsedImports usedImportsFn usedImportsImports).countP
        (fun u => u.source = "./Button" && u.imported = "default") = 1 ∧
    (analyzeUsedImports usedImportsFn usedImportsImports).countP
        (fun u => u.source = "./utils" && u.imported = "helper") = 1 ∧
    (analyzeUsedImports usedImportsFn usedImportsImports).countP
        (fun u => u.source = "./utils" && u.imported = "unusedUtil") = 0 := by
  refine ⟨?_, ?_, ?_⟩
  · rw [c6_used_imports_exactly_once usedImportsFn usedImportsImports (by decide)
      "./Button" "default"]
    decide
  · rw [c6_used_imports_exactly_once usedImportsFn usedImportsImports (by decide)
      "./utils" "helper"]
    decide
  · rw [c6_used_imports_exactly_once usedImportsFn usedImportsImports (by decide)
      "./utils" "unusedUtil"]
    decide

/-- Witness for C10 at a concrete unparsable file. -/
theorem c10_parse_failure_yields_error_record_witness :
    parseReactFile fsEmpty (fun _ => Except.error "Unexpected token (1:0)") true
        "/p/broken.js" "(((" =
      { filePath := "/p/broken.js", chunkId := "", fileName := "broken.js",
        fileType := "", isJSX := false, content := "(((", totalLines := 0,
        imports := [], exports := [], components := [], functions := [],
        comments := [], dependencies := [], error := some "Unexpected token (1:0)" } :=
  c10_parse_failure_yields_error_record fsEmpty
    (fun _ => Except.error "Unexpected token (1:0)") true "/p/broken.js" "((("
    "Unexpected token (1:0)" rfl

end CodeWise
